import Mathlib

set_option maxHeartbeats 1000000

/-
Verification of the AST transformation pipeline: the parse-tree model, the
scope-binding analysis, the alpha-renaming pass (AlphaRenamer.js), the for-in
desugaring pass and the runtime-inlining registry (ForInTransformPass.js).

Collaborators that the two source files import (ParseTreeTransformer,
ParseTreeFactory, VariableBinder, the unique-identifier generator and the
parser) are not part of the sources; they are modelled from the spec and
marked as such in their doc comments.
-/

mutual

/-- The parse tree model: a closed set of immutable node variants, one
constructor per syntactic kind used by the two passes. Identifier tokens,
operator tokens, declaration types and member names are carried as strings;
source-location metadata is omitted (the spec treats it as opaque and
structural equality ignores it). `VariableDeclaration.lvalue` is the declared
identifier token: ForInTransformPass reads `declarations[0].lvalue` as a token
(it wraps it with `createIdentifierExpression` and then reads
`.identifierToken` back off the result). Formal parameters and
destructuring-pattern names are name lists for the same reason. -/
inductive ParseTree where
  | Program (programElements : PTList)
  | Block (statements : PTList)
  | VariableStatement (declarations : ParseTree)
  | VariableDeclarationList (declarationType : String) (declarations : PTList)
  | VariableDeclaration (lvalue : String) (initializer : PTOpt)
  | IdentifierExpression (identifierToken : String)
  | ThisExpression
  | FunctionDeclaration (name : String) (formalParameterList : List String)
      (functionBody : ParseTree)
  | Catch (binding : ParseTree) (catchBody : ParseTree)
  | BindingPattern (boundNames : List String)
  | ForInStatement (initializer : ParseTree) (collection : ParseTree) (body : ParseTree)
  | ForStatement (initializer : ParseTree) (condition : ParseTree)
      (increment : ParseTree) (body : ParseTree)
  | IfStatement (condition : ParseTree) (ifClause : ParseTree) (elseClause : PTOpt)
  | ExpressionStatement (expression : ParseTree)
  | CallExpression (operand : ParseTree) (args : PTList)
  | MemberExpression (operand : ParseTree) (memberName : String)
  | MemberLookupExpression (operand : ParseTree) (memberExpression : ParseTree)
  | BinaryOperator (left : ParseTree) (operator : String) (right : ParseTree)
  | UnaryExpression (operator : String) (operand : ParseTree)
  | ParenExpression (expression : ParseTree)
  | PostfixExpression (operand : ParseTree) (operator : String)
  | ContinueStatement
  | NumberLiteral (value : Nat)
  | ArrayLiteralExpression (elements : PTList)
  | ReturnStatement (expression : PTOpt)
  deriving DecidableEq

/-- A list of parse trees (child lists such as block statements), kept inside
the mutual inductive family so that all recursions are structural. -/
inductive PTList where
  | nil
  | cons (head : ParseTree) (tail : PTList)
  deriving DecidableEq

/-- An optional parse tree child (an absent initializer or else-clause). -/
inductive PTOpt where
  | none
  | some (tree : ParseTree)
  deriving DecidableEq

end

/-- Conversion from an ordinary list, used to write concrete trees. -/
def PTList.ofList : List ParseTree → PTList
  | [] => .nil
  | t :: ts => .cons t (PTList.ofList ts)

/-- The declared names of a `VariableDeclarationList`s declarations. -/
def declaredNames : PTList → List String
  | .nil => []
  | .cons (.VariableDeclaration lv _) ds => lv :: declaredNames ds
  | .cons _ ds => declaredNames ds

/-- Modelled from the spec: Scope Binding Analysis, per-statement part. The
names a single statement binds directly in the enclosing block: the lvalues of
a variable statement and the name of a function declaration; nothing else
(nested blocks, functions and catch clauses do not contribute). -/
def directlyBound : ParseTree → List String
  | .VariableStatement (.VariableDeclarationList _ ds) => declaredNames ds
  | .FunctionDeclaration f _ _ => [f]
  | _ => []

/-- Modelled from the spec: `variablesInBlock` of VariableBinder.js (not among
the source files) — the names bound directly in a block with the given
statement list. -/
def variablesInBlock : PTList → List String
  | .nil => []
  | .cons s ss => directlyBound s ++ variablesInBlock ss

mutual

/-- Modelled from the spec: the `var`-declared names anywhere in a function
body, excluding nested function bodies (the hoisting rule: `var` declarations
are function-scoped regardless of nesting inside blocks, loops or
conditionals). -/
def varDeclaredNames : ParseTree → List String
  | .Program es => varDeclaredNamesList es
  | .Block ss => varDeclaredNamesList ss
  | .VariableStatement dl => varDeclaredNames dl
  | .VariableDeclarationList dt ds =>
      if dt = "var" then declaredNames ds else []
  | .VariableDeclaration _ _ => []
  | .IdentifierExpression _ => []
  | .ThisExpression => []
  | .FunctionDeclaration _ _ _ => []
  | .Catch _ b => varDeclaredNames b
  | .BindingPattern _ => []
  | .ForInStatement i _ b => varDeclaredNames i ++ varDeclaredNames b
  | .ForStatement i _ _ b => varDeclaredNames i ++ varDeclaredNames b
  | .IfStatement _ t e => varDeclaredNames t ++ varDeclaredNamesOpt e
  | .ExpressionStatement _ => []
  | .CallExpression _ _ => []
  | .MemberExpression _ _ => []
  | .MemberLookupExpression _ _ => []
  | .BinaryOperator _ _ _ => []
  | .UnaryExpression _ _ => []
  | .ParenExpression _ => []
  | .PostfixExpression _ _ => []
  | .ContinueStatement => []
  | .NumberLiteral _ => []
  | .ArrayLiteralExpression _ => []
  | .ReturnStatement _ => []

/-- List version of `varDeclaredNames`. -/
def varDeclaredNamesList : PTList → List String
  | .nil => []
  | .cons s ss => varDeclaredNames s ++ varDeclaredNamesList ss

/-- Optional-child version of `varDeclaredNames`. -/
def varDeclaredNamesOpt : PTOpt → List String
  | .none => []
  | .some t => varDeclaredNames t

end

/-- Modelled from the spec: `variablesInFunction` of VariableBinder.js — the
union of the formal parameter names and every `var`-declared name in the
function body (excluding nested function bodies). It does not depend on the
function's own declared name, so computing it before or after the
AlphaRenamer rewrites that name gives the same set. -/
def variablesInFunction (formals : List String) (functionBody : ParseTree) : List String :=
  formals ++ varDeclaredNames functionBody

/-- The catch-clause rebinding test of AlphaRenamer.transformCatch:
`!tree.binding.isPattern() && oldName === tree.binding.identifierToken.value`.
Only an identifier-expression binding has an identifier token; destructuring
patterns (and, vacuously, any other shape) answer false. -/
def catchBindsName (binding : ParseTree) (name : String) : Bool :=
  match binding with
  | .IdentifierExpression y => y = name
  | _ => false

namespace AlphaRenamer

mutual

/-- AlphaRenamer's dispatch (`transformAny` with the pass's overrides),
translated from src/codegeneration/AlphaRenamer.js. The overridden kinds are
Block (stop when `oldName` is bound directly in the block),
IdentifierExpression and ThisExpression (rewrite the matching token),
FunctionDeclaration (rewrite the declared name when it equals `oldName`; do
not recurse when `oldName` is "arguments", "this", or rebound in the
function) and Catch (stop when the caught binding is a plain name equal to
`oldName`). Every other kind takes the generic transformer's default:
structural recursion over each child (modelled from the spec, the base
ParseTreeTransformer not being among the source files). -/
def transformAny (oldName newName : String) : ParseTree → ParseTree
  | .Block ss =>
      if oldName ∈ variablesInBlock ss then .Block ss
      else .Block (transformList oldName newName ss)
  | .IdentifierExpression y =>
      if oldName = y then .IdentifierExpression newName
      else .IdentifierExpression y
  | .ThisExpression =>
      if oldName = "this" then .IdentifierExpression newName else .ThisExpression
  | .FunctionDeclaration f ps b =>
      -- definition site: rewritten when the function's own name matches
      let f1 := if oldName = f then newName else f
      if oldName = "arguments" ∨ oldName = "this" ∨
          oldName ∈ variablesInFunction ps b then
        .FunctionDeclaration f1 ps b
      else
        .FunctionDeclaration f1 ps (transformAny oldName newName b)
  | .Catch bind b =>
      if catchBindsName bind oldName then .Catch bind b
      else .Catch (transformAny oldName newName bind) (transformAny oldName newName b)
  | .Program es => .Program (transformList oldName newName es)
  | .VariableStatement dl => .VariableStatement (transformAny oldName newName dl)
  | .VariableDeclarationList dt ds =>
      .VariableDeclarationList dt (transformList oldName newName ds)
  | .VariableDeclaration lv i =>
      .VariableDeclaration lv (transformOpt oldName newName i)
  | .BindingPattern ns => .BindingPattern ns
  | .ForInStatement i c b =>
      .ForInStatement (transformAny oldName newName i) (transformAny oldName newName c)
        (transformAny oldName newName b)
  | .ForStatement i c inc b =>
      .ForStatement (transformAny oldName newName i) (transformAny oldName newName c)
        (transformAny oldName newName inc) (transformAny oldName newName b)
  | .IfStatement c t e =>
      .IfStatement (transformAny oldName newName c) (transformAny oldName newName t)
        (transformOpt oldName newName e)
  | .ExpressionStatement e => .ExpressionStatement (transformAny oldName newName e)
  | .CallExpression op args =>
      .CallExpression (transformAny oldName newName op) (transformList oldName newName args)
  | .MemberExpression op mn => .MemberExpression (transformAny oldName newName op) mn
  | .MemberLookupExpression op me =>
      .MemberLookupExpression (transformAny oldName newName op)
        (transformAny oldName newName me)
  | .BinaryOperator l op r =>
      .BinaryOperator (transformAny oldName newName l) op (transformAny oldName newName r)
  | .UnaryExpression op od => .UnaryExpression op (transformAny oldName newName od)
  | .ParenExpression e => .ParenExpression (transformAny oldName newName e)
  | .PostfixExpression od op => .PostfixExpression (transformAny oldName newName od) op
  | .ContinueStatement => .ContinueStatement
  | .NumberLiteral v => .NumberLiteral v
  | .ArrayLiteralExpression es =>
      .ArrayLiteralExpression (transformList oldName newName es)
  | .ReturnStatement e => .ReturnStatement (transformOpt oldName newName e)

/-- Child-list traversal of the generic transformer default. -/
def transformList (oldName newName : String) : PTList → PTList
  | .nil => .nil
  | .cons t ts =>
      .cons (transformAny oldName newName t) (transformList oldName newName ts)

/-- Optional-child traversal of the generic transformer default. -/
def transformOpt (oldName newName : String) : PTOpt → PTOpt
  | .none => .none
  | .some t => .some (transformAny oldName newName t)

end

/-- AlphaRenamer.rename: alpha-renames `oldName` to `newName` in `tree`. -/
def rename (tree : ParseTree) (oldName newName : String) : ParseTree :=
  transformAny oldName newName tree

end AlphaRenamer

mutual

/-- Token-occurrence test: does `x` occur anywhere in the tree at a position
the AlphaRenamer can read or rewrite — an identifier expression token, the
implicit `this` (for x = "this"), a declared function name, a formal
parameter, or a `var`/`let`/`const` lvalue. Member names and
destructuring-pattern names are excluded: the renamer never inspects them.
This is the hygiene side condition of the round-trip theorem ("newName is
typically sourced from the Unique Identifier Generator", hence occurs
nowhere). -/
def occursName (x : String) : ParseTree → Bool
  | .Program es => occursNameList x es
  | .Block ss => occursNameList x ss
  | .VariableStatement dl => occursName x dl
  | .VariableDeclarationList _ ds => occursNameList x ds
  | .VariableDeclaration lv i => lv = x || occursNameOpt x i
  | .IdentifierExpression y => y = x
  | .ThisExpression => x = "this"
  | .FunctionDeclaration f ps b => f = x || ps.contains x || occursName x b
  | .Catch bind b => occursName x bind || occursName x b
  | .BindingPattern _ => false
  | .ForInStatement i c b => occursName x i || occursName x c || occursName x b
  | .ForStatement i c inc b =>
      occursName x i || occursName x c || occursName x inc || occursName x b
  | .IfStatement c t e => occursName x c || occursName x t || occursNameOpt x e
  | .ExpressionStatement e => occursName x e
  | .CallExpression op args => occursName x op || occursNameList x args
  | .MemberExpression op _ => occursName x op
  | .MemberLookupExpression op me => occursName x op || occursName x me
  | .BinaryOperator l _ r => occursName x l || occursName x r
  | .UnaryExpression _ od => occursName x od
  | .ParenExpression e => occursName x e
  | .PostfixExpression od _ => occursName x od
  | .ContinueStatement => false
  | .NumberLiteral _ => false
  | .ArrayLiteralExpression es => occursNameList x es
  | .ReturnStatement e => occursNameOpt x e

/-- List version of `occursName`. -/
def occursNameList (x : String) : PTList → Bool
  | .nil => false
  | .cons t ts => occursName x t || occursNameList x ts

/-- Optional-child version of `occursName`. -/
def occursNameOpt (x : String) : PTOpt → Bool
  | .none => false
  | .some t => occursName x t

end

mutual

/-- Free (unshadowed) occurrence of a name, following the spec's scoping
rules: an identifier expression with that token (or a this-expression for the
name "this") not under a block that binds the name directly, not under a
function that rebinds it (formal parameters, `var`-declared names, or the
implicit "this"/"arguments" bindings), and not under a catch clause whose
plain binding is that name. Binding occurrences themselves — declared
function names, formal parameters, declaration lvalues, catch bindings — are
not free occurrences. This formalises the claim's "occurs free in T"
hypothesis. -/
def occursFree (x : String) : ParseTree → Bool
  | .Program es => occursFreeList x es
  | .Block ss =>
      if x ∈ variablesInBlock ss then false else occursFreeList x ss
  | .VariableStatement dl => occursFree x dl
  | .VariableDeclarationList _ ds => occursFreeList x ds
  | .VariableDeclaration _ i => occursFreeOpt x i
  | .IdentifierExpression y => y = x
  | .ThisExpression => x = "this"
  | .FunctionDeclaration _ ps b =>
      if x = "arguments" ∨ x = "this" ∨ x ∈ variablesInFunction ps b then false
      else occursFree x b
  | .Catch bind b =>
      if catchBindsName bind x then false else occursFree x b
  | .BindingPattern _ => false
  | .ForInStatement i c b => occursFree x i || occursFree x c || occursFree x b
  | .ForStatement i c inc b =>
      occursFree x i || occursFree x c || occursFree x inc || occursFree x b
  | .IfStatement c t e => occursFree x c || occursFree x t || occursFreeOpt x e
  | .ExpressionStatement e => occursFree x e
  | .CallExpression op args => occursFree x op || occursFreeList x args
  | .MemberExpression op _ => occursFree x op
  | .MemberLookupExpression op me => occursFree x op || occursFree x me
  | .BinaryOperator l _ r => occursFree x l || occursFree x r
  | .UnaryExpression _ od => occursFree x od
  | .ParenExpression e => occursFree x e
  | .PostfixExpression od _ => occursFree x od
  | .ContinueStatement => false
  | .NumberLiteral _ => false
  | .ArrayLiteralExpression es => occursFreeList x es
  | .ReturnStatement e => occursFreeOpt x e

/-- List version of `occursFree`. -/
def occursFreeList (x : String) : PTList → Bool
  | .nil => false
  | .cons t ts => occursFree x t || occursFreeList x ts

/-- Optional-child version of `occursFree`. -/
def occursFreeOpt (x : String) : PTOpt → Bool
  | .none => false
  | .some t => occursFree x t

end

mutual

/-- Renaming a name that occurs nowhere in the tree changes nothing. -/
theorem transformAny_no_occur (o n : String) :
    ∀ t, occursName o t = false → AlphaRenamer.transformAny o n t = t
  | .Program es, h => by
      simp only [occursName] at h
      simp [AlphaRenamer.transformAny, transformList_no_occur o n es h]
  | .Block ss, h => by
      simp only [occursName] at h
      by_cases hb : o ∈ variablesInBlock ss
      · simp [AlphaRenamer.transformAny, hb]
      · simp [AlphaRenamer.transformAny, hb, transformList_no_occur o n ss h]
  | .VariableStatement dl, h => by
      simp only [occursName] at h
      simp [AlphaRenamer.transformAny, transformAny_no_occur o n dl h]
  | .VariableDeclarationList dt ds, h => by
      simp only [occursName] at h
      simp [AlphaRenamer.transformAny, transformList_no_occur o n ds h]
  | .VariableDeclaration lv i, h => by
      simp only [occursName, Bool.or_eq_false_iff] at h
      simp [AlphaRenamer.transformAny, transformOpt_no_occur o n i h.2]
  | .IdentifierExpression y, h => by
      simp only [occursName, decide_eq_false_iff_not] at h
      have : ¬(o = y) := fun e => h e.symm
      simp [AlphaRenamer.transformAny, this]
  | .ThisExpression, h => by
      simp only [occursName, decide_eq_false_iff_not] at h
      simp [AlphaRenamer.transformAny, h]
  | .FunctionDeclaration f ps b, h => by
      simp only [occursName, Bool.or_eq_false_iff, decide_eq_false_iff_not] at h
      obtain ⟨⟨h1, h2⟩, h3⟩ := h
      have hne : ¬(o = f) := fun e => h1 e.symm
      by_cases hd : o = "arguments" ∨ o = "this" ∨ o ∈ variablesInFunction ps b
      · simp [AlphaRenamer.transformAny, hd, hne]
      · simp [AlphaRenamer.transformAny, hd, hne, transformAny_no_occur o n b h3]
  | .Catch bind b, h => by
      simp only [occursName, Bool.or_eq_false_iff] at h
      by_cases hc : catchBindsName bind o = true
      · simp [AlphaRenamer.transformAny, hc]
      · simp [AlphaRenamer.transformAny, hc, transformAny_no_occur o n bind h.1,
          transformAny_no_occur o n b h.2]
  | .BindingPattern ns, _ => by simp [AlphaRenamer.transformAny]
  | .ForInStatement i c b, h => by
      simp only [occursName, Bool.or_eq_false_iff] at h
      simp [AlphaRenamer.transformAny, transformAny_no_occur o n i h.1.1,
        transformAny_no_occur o n c h.1.2, transformAny_no_occur o n b h.2]
  | .ForStatement i c inc b, h => by
      simp only [occursName, Bool.or_eq_false_iff] at h
      simp [AlphaRenamer.transformAny, transformAny_no_occur o n i h.1.1.1,
        transformAny_no_occur o n c h.1.1.2, transformAny_no_occur o n inc h.1.2,
        transformAny_no_occur o n b h.2]
  | .IfStatement c t e, h => by
      simp only [occursName, Bool.or_eq_false_iff] at h
      simp [AlphaRenamer.transformAny, transformAny_no_occur o n c h.1.1,
        transformAny_no_occur o n t h.1.2, transformOpt_no_occur o n e h.2]
  | .ExpressionStatement e, h => by
      simp only [occursName] at h
      simp [AlphaRenamer.transformAny, transformAny_no_occur o n e h]
  | .CallExpression op args, h => by
      simp only [occursName, Bool.or_eq_false_iff] at h
      simp [AlphaRenamer.transformAny, transformAny_no_occur o n op h.1,
        transformList_no_occur o n args h.2]
  | .MemberExpression op mn, h => by
      simp only [occursName] at h
      simp [AlphaRenamer.transformAny, transformAny_no_occur o n op h]
  | .MemberLookupExpression op me, h => by
      simp only [occursName, Bool.or_eq_false_iff] at h
      simp [AlphaRenamer.transformAny, transformAny_no_occur o n op h.1,
        transformAny_no_occur o n me h.2]
  | .BinaryOperator l op r, h => by
      simp only [occursName, Bool.or_eq_false_iff] at h
      simp [AlphaRenamer.transformAny, transformAny_no_occur o n l h.1,
        transformAny_no_occur o n r h.2]
  | .UnaryExpression op od, h => by
      simp only [occursName] at h
      simp [AlphaRenamer.transformAny, transformAny_no_occur o n od h]
  | .ParenExpression e, h => by
      simp only [occursName] at h
      simp [AlphaRenamer.transformAny, transformAny_no_occur o n e h]
  | .PostfixExpression od op, h => by
      simp only [occursName] at h
      simp [AlphaRenamer.transformAny, transformAny_no_occur o n od h]
  | .ContinueStatement, _ => by simp [AlphaRenamer.transformAny]
  | .NumberLiteral v, _ => by simp [AlphaRenamer.transformAny]
  | .ArrayLiteralExpression es, h => by
      simp only [occursName] at h
      simp [AlphaRenamer.transformAny, transformList_no_occur o n es h]
  | .ReturnStatement e, h => by
      simp only [occursName] at h
      simp [AlphaRenamer.transformAny, transformOpt_no_occur o n e h]

/-- List version of `transformAny_no_occur`. -/
theorem transformList_no_occur (o n : String) :
    ∀ ts, occursNameList o ts = false → AlphaRenamer.transformList o n ts = ts
  | .nil, _ => rfl
  | .cons t ts, h => by
      simp only [occursNameList, Bool.or_eq_false_iff] at h
      simp [AlphaRenamer.transformList, transformAny_no_occur o n t h.1,
        transformList_no_occur o n ts h.2]

/-- Optional-child version of `transformAny_no_occur`. -/
theorem transformOpt_no_occur (o n : String) :
    ∀ c, occursNameOpt o c = false → AlphaRenamer.transformOpt o n c = c
  | .none, _ => rfl
  | .some t, h => by
      simp only [occursNameOpt] at h
      simp [AlphaRenamer.transformOpt, transformAny_no_occur o n t h]

end

/-- Renaming never touches declaration lvalues: the declared names of a
declaration list are unchanged by the renamer. -/
theorem declaredNames_transformList (o n : String) :
    ∀ ds, declaredNames (AlphaRenamer.transformList o n ds) = declaredNames ds
  | .nil => rfl
  | .cons t ds => by
      have ih := declaredNames_transformList o n ds
      cases t <;>
        simp only [AlphaRenamer.transformList, AlphaRenamer.transformAny,
          declaredNames, ih] <;>
        first
          | rfl
          | (split <;> simp [declaredNames, ih])

/-- The lvalue names of a variable statement whose declaration-list child is
`c` (empty for any other child shape). -/
def listBound (c : ParseTree) : List String :=
  match c with
  | .VariableDeclarationList _ ds => declaredNames ds
  | _ => []

/-- `directlyBound` of a variable statement factors through `listBound`. -/
theorem directlyBound_variableStatement (c : ParseTree) :
    directlyBound (.VariableStatement c) = listBound c := by
  cases c <;> rfl

/-- Renaming does not change the lvalue names of a variable statement's
child. -/
theorem listBound_transformAny (o n : String) (c : ParseTree) :
    listBound (AlphaRenamer.transformAny o n c) = listBound c := by
  cases c <;>
    simp only [AlphaRenamer.transformAny, apply_ite listBound] <;>
    simp [listBound, declaredNames_transformList]

/-- The names a statement binds directly in its block are unchanged by
renaming any name not among them (the only direct binder the renamer can
rewrite is a function declaration's own name). -/
theorem directlyBound_transformAny (o n : String) (s : ParseTree)
    (h : o ∉ directlyBound s) :
    directlyBound (AlphaRenamer.transformAny o n s) = directlyBound s := by
  cases s with
  | VariableStatement dl =>
      simp only [AlphaRenamer.transformAny, directlyBound_variableStatement,
        listBound_transformAny]
  | FunctionDeclaration f ps b =>
      simp only [directlyBound, List.mem_singleton] at h
      simp only [AlphaRenamer.transformAny]
      split <;> simp [directlyBound, h]
  | Block ss => simp only [AlphaRenamer.transformAny]; split <;> rfl
  | IdentifierExpression y => simp only [AlphaRenamer.transformAny]; split <;> rfl
  | ThisExpression => simp only [AlphaRenamer.transformAny]; split <;> rfl
  | Catch bind b => simp only [AlphaRenamer.transformAny]; split <;> rfl
  | _ => rfl

/-- The directly bound names of a block are unchanged by renaming a name not
bound directly in it. -/
theorem variablesInBlock_transformList (o n : String) :
    ∀ ss, o ∉ variablesInBlock ss →
      variablesInBlock (AlphaRenamer.transformList o n ss) = variablesInBlock ss
  | .nil, _ => rfl
  | .cons s ss, h => by
      simp only [variablesInBlock, List.mem_append] at h
      push_neg at h
      simp [AlphaRenamer.transformList, variablesInBlock,
        directlyBound_transformAny o n s h.1,
        variablesInBlock_transformList o n ss h.2]

mutual

/-- Renaming never changes the `var`-declared names of a function body
(declaration lvalues are tokens the renamer does not visit). -/
theorem varDeclaredNames_transformAny (o n : String) :
    ∀ t, varDeclaredNames (AlphaRenamer.transformAny o n t) = varDeclaredNames t
  | .Program es => by
      simp [AlphaRenamer.transformAny, varDeclaredNames,
        varDeclaredNamesList_transformList o n es]
  | .Block ss => by
      simp only [AlphaRenamer.transformAny]
      split
      · rfl
      · simp [varDeclaredNames, varDeclaredNamesList_transformList o n ss]
  | .VariableStatement dl => by
      simp [AlphaRenamer.transformAny, varDeclaredNames,
        varDeclaredNames_transformAny o n dl]
  | .VariableDeclarationList dt ds => by
      simp [AlphaRenamer.transformAny, varDeclaredNames,
        declaredNames_transformList o n ds]
  | .VariableDeclaration lv i => by simp [AlphaRenamer.transformAny, varDeclaredNames]
  | .IdentifierExpression y => by
      simp only [AlphaRenamer.transformAny]
      split <;> rfl
  | .ThisExpression => by
      simp only [AlphaRenamer.transformAny]
      split <;> rfl
  | .FunctionDeclaration f ps b => by
      simp only [AlphaRenamer.transformAny]
      split <;> rfl
  | .Catch bind b => by
      simp only [AlphaRenamer.transformAny]
      split
      · rfl
      · simp [varDeclaredNames, varDeclaredNames_transformAny o n b]
  | .BindingPattern ns => by simp [AlphaRenamer.transformAny]
  | .ForInStatement i c b => by
      simp [AlphaRenamer.transformAny, varDeclaredNames,
        varDeclaredNames_transformAny o n i, varDeclaredNames_transformAny o n b]
  | .ForStatement i c inc b => by
      simp [AlphaRenamer.transformAny, varDeclaredNames,
        varDeclaredNames_transformAny o n i, varDeclaredNames_transformAny o n b]
  | .IfStatement c t e => by
      simp [AlphaRenamer.transformAny, varDeclaredNames,
        varDeclaredNames_transformAny o n t, varDeclaredNamesOpt_transformOpt o n e]
  | .ExpressionStatement e => by simp [AlphaRenamer.transformAny, varDeclaredNames]
  | .CallExpression op args => by simp [AlphaRenamer.transformAny, varDeclaredNames]
  | .MemberExpression op mn => by simp [AlphaRenamer.transformAny, varDeclaredNames]
  | .MemberLookupExpression op me => by simp [AlphaRenamer.transformAny, varDeclaredNames]
  | .BinaryOperator l op r => by simp [AlphaRenamer.transformAny, varDeclaredNames]
  | .UnaryExpression op od => by simp [AlphaRenamer.transformAny, varDeclaredNames]
  | .ParenExpression e => by simp [AlphaRenamer.transformAny, varDeclaredNames]
  | .PostfixExpression od op => by simp [AlphaRenamer.transformAny, varDeclaredNames]
  | .ContinueStatement => rfl
  | .NumberLiteral v => rfl
  | .ArrayLiteralExpression es => by simp [AlphaRenamer.transformAny, varDeclaredNames]
  | .ReturnStatement e => by simp [AlphaRenamer.transformAny, varDeclaredNames]

/-- List version of `varDeclaredNames_transformAny`. -/
theorem varDeclaredNamesList_transformList (o n : String) :
    ∀ ts, varDeclaredNamesList (AlphaRenamer.transformList o n ts) = varDeclaredNamesList ts
  | .nil => rfl
  | .cons t ts => by
      simp [AlphaRenamer.transformList, varDeclaredNamesList,
        varDeclaredNames_transformAny o n t, varDeclaredNamesList_transformList o n ts]

/-- Optional-child version of `varDeclaredNames_transformAny`. -/
theorem varDeclaredNamesOpt_transformOpt (o n : String) :
    ∀ c, varDeclaredNamesOpt (AlphaRenamer.transformOpt o n c) = varDeclaredNamesOpt c
  | .none => rfl
  | .some t => by
      simp [AlphaRenamer.transformOpt, varDeclaredNamesOpt,
        varDeclaredNames_transformAny o n t]

end

/-- A name that occurs nowhere in a declaration list is not among its declared
names. -/
theorem not_mem_declaredNames (o : String) :
    ∀ ds, occursNameList o ds = false → o ∉ declaredNames ds
  | .nil, _ => by simp [declaredNames]
  | .cons t ds, h => by
      simp only [occursNameList, Bool.or_eq_false_iff] at h
      have ih := not_mem_declaredNames o ds h.2
      cases t <;> simp only [declaredNames] <;> try exact ih
      case VariableDeclaration lv i =>
        have := h.1
        simp only [occursName, Bool.or_eq_false_iff, decide_eq_false_iff_not] at this
        simp only [List.mem_cons]
        rintro (e | e)
        · exact this.1 e.symm
        · exact ih e

/-- A name that occurs nowhere in a statement is not bound directly by it. -/
theorem not_mem_directlyBound (o : String) (s : ParseTree)
    (h : occursName o s = false) : o ∉ directlyBound s := by
  cases s with
  | VariableStatement dl =>
      cases dl <;> simp only [directlyBound] <;> try simp
      case VariableDeclarationList dt ds =>
        simp only [occursName] at h
        exact not_mem_declaredNames o ds h
  | FunctionDeclaration f ps b =>
      simp only [occursName, Bool.or_eq_false_iff, decide_eq_false_iff_not] at h
      simp only [directlyBound, List.mem_singleton]
      exact fun e => h.1.1 e.symm
  | _ => simp [directlyBound]

/-- A name that occurs nowhere in a block's statements is not bound directly
in the block. -/
theorem not_mem_variablesInBlock (o : String) :
    ∀ ss, occursNameList o ss = false → o ∉ variablesInBlock ss
  | .nil, _ => by simp [variablesInBlock]
  | .cons s ss, h => by
      simp only [occursNameList, Bool.or_eq_false_iff] at h
      simp only [variablesInBlock, List.mem_append]
      rintro (e | e)
      · exact not_mem_directlyBound o s h.1 e
      · exact not_mem_variablesInBlock o ss h.2 e

mutual

/-- A name that occurs nowhere in a tree is not among its `var`-declared
names. -/
theorem not_mem_varDeclaredNames (o : String) :
    ∀ t, occursName o t = false → o ∉ varDeclaredNames t
  | .Program es, h => by
      simp only [occursName] at h
      simpa [varDeclaredNames] using not_mem_varDeclaredNamesList o es h
  | .Block ss, h => by
      simp only [occursName] at h
      simpa [varDeclaredNames] using not_mem_varDeclaredNamesList o ss h
  | .VariableStatement dl, h => by
      simp only [occursName] at h
      simpa [varDeclaredNames] using not_mem_varDeclaredNames o dl h
  | .VariableDeclarationList dt ds, h => by
      simp only [occursName] at h
      simp only [varDeclaredNames]
      split
      · exact not_mem_declaredNames o ds h
      · simp
  | .VariableDeclaration lv i, _ => by simp [varDeclaredNames]
  | .IdentifierExpression y, _ => by simp [varDeclaredNames]
  | .ThisExpression, _ => by simp [varDeclaredNames]
  | .FunctionDeclaration f ps b, _ => by simp [varDeclaredNames]
  | .Catch bind b, h => by
      simp only [occursName, Bool.or_eq_false_iff] at h
      simpa [varDeclaredNames] using not_mem_varDeclaredNames o b h.2
  | .BindingPattern ns, _ => by simp [varDeclaredNames]
  | .ForInStatement i c b, h => by
      simp only [occursName, Bool.or_eq_false_iff] at h
      simp only [varDeclaredNames, List.mem_append]
      rintro (e | e)
      · exact not_mem_varDeclaredNames o i h.1.1 e
      · exact not_mem_varDeclaredNames o b h.2 e
  | .ForStatement i c inc b, h => by
      simp only [occursName, Bool.or_eq_false_iff] at h
      simp only [varDeclaredNames, List.mem_append]
      rintro (e | e)
      · exact not_mem_varDeclaredNames o i h.1.1.1 e
      · exact not_mem_varDeclaredNames o b h.2 e
  | .IfStatement c t e, h => by
      simp only [occursName, Bool.or_eq_false_iff] at h
      simp only [varDeclaredNames, List.mem_append]
      rintro (e' | e')
      · exact not_mem_varDeclaredNames o t h.1.2 e'
      · exact not_mem_varDeclaredNamesOpt o e h.2 e'
  | .ExpressionStatement e, _ => by simp [varDeclaredNames]
  | .CallExpression op args, _ => by simp [varDeclaredNames]
  | .MemberExpression op mn, _ => by simp [varDeclaredNames]
  | .MemberLookupExpression op me, _ => by simp [varDeclaredNames]
  | .BinaryOperator l op r, _ => by simp [varDeclaredNames]
  | .UnaryExpression op od, _ => by simp [varDeclaredNames]
  | .ParenExpression e, _ => by simp [varDeclaredNames]
  | .PostfixExpression od op, _ => by simp [varDeclaredNames]
  | .ContinueStatement, _ => by simp [varDeclaredNames]
  | .NumberLiteral v, _ => by simp [varDeclaredNames]
  | .ArrayLiteralExpression es, _ => by simp [varDeclaredNames]
  | .ReturnStatement e, _ => by simp [varDeclaredNames]

/-- List version of `not_mem_varDeclaredNames`. -/
theorem not_mem_varDeclaredNamesList (o : String) :
    ∀ ts, occursNameList o ts = false → o ∉ varDeclaredNamesList ts
  | .nil, _ => by simp [varDeclaredNamesList]
  | .cons t ts, h => by
      simp only [occursNameList, Bool.or_eq_false_iff] at h
      simp only [varDeclaredNamesList, List.mem_append]
      rintro (e | e)
      · exact not_mem_varDeclaredNames o t h.1 e
      · exact not_mem_varDeclaredNamesList o ts h.2 e

/-- Optional-child version of `not_mem_varDeclaredNames`. -/
theorem not_mem_varDeclaredNamesOpt (o : String) :
    ∀ c, occursNameOpt o c = false → o ∉ varDeclaredNamesOpt c
  | .none, _ => by simp [varDeclaredNamesOpt]
  | .some t, h => by
      simp only [occursNameOpt] at h
      simpa [varDeclaredNamesOpt] using not_mem_varDeclaredNames o t h

end

/-- A name that does not occur in a catch binding is not its plain bound
name. -/
theorem catchBindsName_no_occur (x : String) (bind : ParseTree)
    (h : occursName x bind = false) : catchBindsName bind x = false := by
  cases bind <;> first | rfl | exact h

/-- Renaming `n` to `m` cannot make a catch binding bind `m`, provided the
binding did not bind `n`, `m` does not occur in it, and `n` is not "this"
(renaming "this" is the one case that can conjure a fresh identifier
binding). -/
theorem catchBindsName_transformAny (n m : String) (bind : ParseTree)
    (hn : n ≠ "this") (hc : catchBindsName bind n = false)
    (h : occursName m bind = false) :
    catchBindsName (AlphaRenamer.transformAny n m bind) m = false := by
  cases bind with
  | IdentifierExpression y =>
      simp only [catchBindsName, decide_eq_false_iff_not] at hc
      have : ¬(n = y) := fun e => hc e.symm
      simp only [AlphaRenamer.transformAny, if_neg this]
      exact h
  | ThisExpression =>
      simp only [AlphaRenamer.transformAny, if_neg hn]
      rfl
  | Block ss => simp only [AlphaRenamer.transformAny]; split <;> rfl
  | FunctionDeclaration f ps b => simp only [AlphaRenamer.transformAny]; split <;> rfl
  | Catch bind1 b => simp only [AlphaRenamer.transformAny]; split <;> rfl
  | _ => rfl

mutual

/-- Alpha-renaming round trip: renaming `n` to `m` and then `m` back to `n`
reproduces the original tree, provided `m` occurs nowhere in the tree, `m` is
neither of the implicit bindings "this"/"arguments", and `n` is not the
implicit "this" binding (which is rewritten into an ordinary identifier and
cannot be restored). -/
theorem roundTrip (n m : String) (hm1 : m ≠ "this") (hm2 : m ≠ "arguments")
    (hn : n ≠ "this") :
    ∀ t, occursName m t = false →
      AlphaRenamer.transformAny m n (AlphaRenamer.transformAny n m t) = t
  | .Program es, h => by
      simp only [occursName] at h
      simp [AlphaRenamer.transformAny, roundTripList n m hm1 hm2 hn es h]
  | .Block ss, h => by
      simp only [occursName] at h
      have hmb := not_mem_variablesInBlock m ss h
      by_cases hb : n ∈ variablesInBlock ss
      · have e1 : AlphaRenamer.transformAny n m (.Block ss) = .Block ss := by
          simp [AlphaRenamer.transformAny, hb]
        rw [e1]
        simp [AlphaRenamer.transformAny, hmb, transformList_no_occur m n ss h]
      · have e1 : AlphaRenamer.transformAny n m (.Block ss)
            = .Block (AlphaRenamer.transformList n m ss) := by
          simp [AlphaRenamer.transformAny, hb]
        rw [e1]
        have hvb := variablesInBlock_transformList n m ss hb
        simp [AlphaRenamer.transformAny, hvb, hmb,
          roundTripList n m hm1 hm2 hn ss h]
  | .VariableStatement dl, h => by
      simp only [occursName] at h
      simp [AlphaRenamer.transformAny, roundTrip n m hm1 hm2 hn dl h]
  | .VariableDeclarationList dt ds, h => by
      simp only [occursName] at h
      simp [AlphaRenamer.transformAny, roundTripList n m hm1 hm2 hn ds h]
  | .VariableDeclaration lv i, h => by
      simp only [occursName, Bool.or_eq_false_iff] at h
      simp [AlphaRenamer.transformAny, roundTripOpt n m hm1 hm2 hn i h.2]
  | .IdentifierExpression y, h => by
      simp only [occursName, decide_eq_false_iff_not] at h
      have hmy : ¬(m = y) := fun e => h e.symm
      by_cases hy : n = y
      · simp [AlphaRenamer.transformAny, hy]
      · simp [AlphaRenamer.transformAny, hy, hmy]
  | .ThisExpression, _ => by
      simp [AlphaRenamer.transformAny, hn, hm1]
  | .FunctionDeclaration f ps b, h => by
      simp only [occursName, Bool.or_eq_false_iff, decide_eq_false_iff_not] at h
      obtain ⟨⟨h1, h2⟩, h3⟩ := h
      have h2' : m ∉ ps := by simpa using h2
      have hvf : m ∉ variablesInFunction ps b := by
        simp only [variablesInFunction, List.mem_append]
        rintro (e | e)
        · exact h2' e
        · exact not_mem_varDeclaredNames m b h3 e
      have hback : ¬(m = "arguments" ∨ m = "this" ∨ m ∈ variablesInFunction ps b) := by
        rintro (e | e | e)
        · exact hm2 e
        · exact hm1 e
        · exact hvf e
      by_cases hd : n = "arguments" ∨ n = "this" ∨ n ∈ variablesInFunction ps b
      · have e1 : AlphaRenamer.transformAny n m (.FunctionDeclaration f ps b)
            = .FunctionDeclaration (if n = f then m else f) ps b := by
          simp only [AlphaRenamer.transformAny]
          rw [if_pos hd]
        rw [e1]
        have e2 : AlphaRenamer.transformAny m n
              (.FunctionDeclaration (if n = f then m else f) ps b)
            = .FunctionDeclaration
                (if m = (if n = f then m else f) then n else (if n = f then m else f))
                ps (AlphaRenamer.transformAny m n b) := by
          simp only [AlphaRenamer.transformAny]
          rw [if_neg hback]
        rw [e2, transformAny_no_occur m n b h3]
        by_cases hnf : n = f
        · simp [hnf]
        · simp [hnf, show ¬(m = f) from fun e => h1 e.symm]
      · have e1 : AlphaRenamer.transformAny n m (.FunctionDeclaration f ps b)
            = .FunctionDeclaration (if n = f then m else f) ps
                (AlphaRenamer.transformAny n m b) := by
          simp only [AlphaRenamer.transformAny]
          rw [if_neg hd]
        rw [e1]
        have hback2 : ¬(m = "arguments" ∨ m = "this" ∨
            m ∈ variablesInFunction ps (AlphaRenamer.transformAny n m b)) := by
          simpa [variablesInFunction, varDeclaredNames_transformAny n m b,
            not_or] using hback
        have e2 : AlphaRenamer.transformAny m n
              (.FunctionDeclaration (if n = f then m else f) ps
                (AlphaRenamer.transformAny n m b))
            = .FunctionDeclaration
                (if m = (if n = f then m else f) then n else (if n = f then m else f))
                ps (AlphaRenamer.transformAny m n (AlphaRenamer.transformAny n m b)) := by
          simp only [AlphaRenamer.transformAny]
          rw [if_neg hback2]
        rw [e2, roundTrip n m hm1 hm2 hn b h3]
        by_cases hnf : n = f
        · simp [hnf]
        · simp [hnf, show ¬(m = f) from fun e => h1 e.symm]
  | .Catch bind b, h => by
      simp only [occursName, Bool.or_eq_false_iff] at h
      obtain ⟨hbind, hb⟩ := h
      by_cases hc : catchBindsName bind n = true
      · have e1 : AlphaRenamer.transformAny n m (.Catch bind b) = .Catch bind b := by
          simp [AlphaRenamer.transformAny, hc]
        rw [e1]
        have hcm := catchBindsName_no_occur m bind hbind
        simp [AlphaRenamer.transformAny, hcm, transformAny_no_occur m n bind hbind,
          transformAny_no_occur m n b hb]
      · have hc' : catchBindsName bind n = false := by
          simpa using hc
        have e1 : AlphaRenamer.transformAny n m (.Catch bind b)
            = .Catch (AlphaRenamer.transformAny n m bind)
                (AlphaRenamer.transformAny n m b) := by
          simp [AlphaRenamer.transformAny, hc]
        rw [e1]
        have hcm2 := catchBindsName_transformAny n m bind hn hc' hbind
        simp [AlphaRenamer.transformAny, hcm2, roundTrip n m hm1 hm2 hn bind hbind,
          roundTrip n m hm1 hm2 hn b hb]
  | .BindingPattern ns, _ => by simp [AlphaRenamer.transformAny]
  | .ForInStatement i c b, h => by
      simp only [occursName, Bool.or_eq_false_iff] at h
      simp [AlphaRenamer.transformAny, roundTrip n m hm1 hm2 hn i h.1.1,
        roundTrip n m hm1 hm2 hn c h.1.2, roundTrip n m hm1 hm2 hn b h.2]
  | .ForStatement i c inc b, h => by
      simp only [occursName, Bool.or_eq_false_iff] at h
      simp [AlphaRenamer.transformAny, roundTrip n m hm1 hm2 hn i h.1.1.1,
        roundTrip n m hm1 hm2 hn c h.1.1.2, roundTrip n m hm1 hm2 hn inc h.1.2,
        roundTrip n m hm1 hm2 hn b h.2]
  | .IfStatement c t e, h => by
      simp only [occursName, Bool.or_eq_false_iff] at h
      simp [AlphaRenamer.transformAny, roundTrip n m hm1 hm2 hn c h.1.1,
        roundTrip n m hm1 hm2 hn t h.1.2, roundTripOpt n m hm1 hm2 hn e h.2]
  | .ExpressionStatement e, h => by
      simp only [occursName] at h
      simp [AlphaRenamer.transformAny, roundTrip n m hm1 hm2 hn e h]
  | .CallExpression op args, h => by
      simp only [occursName, Bool.or_eq_false_iff] at h
      simp [AlphaRenamer.transformAny, roundTrip n m hm1 hm2 hn op h.1,
        roundTripList n m hm1 hm2 hn args h.2]
  | .MemberExpression op mn, h => by
      simp only [occursName] at h
      simp [AlphaRenamer.transformAny, roundTrip n m hm1 hm2 hn op h]
  | .MemberLookupExpression op me, h => by
      simp only [occursName, Bool.or_eq_false_iff] at h
      simp [AlphaRenamer.transformAny, roundTrip n m hm1 hm2 hn op h.1,
        roundTrip n m hm1 hm2 hn me h.2]
  | .BinaryOperator l op r, h => by
      simp only [occursName, Bool.or_eq_false_iff] at h
      simp [AlphaRenamer.transformAny, roundTrip n m hm1 hm2 hn l h.1,
        roundTrip n m hm1 hm2 hn r h.2]
  | .UnaryExpression op od, h => by
      simp only [occursName] at h
      simp [AlphaRenamer.transformAny, roundTrip n m hm1 hm2 hn od h]
  | .ParenExpression e, h => by
      simp only [occursName] at h
      simp [AlphaRenamer.transformAny, roundTrip n m hm1 hm2 hn e h]
  | .PostfixExpression od op, h => by
      simp only [occursName] at h
      simp [AlphaRenamer.transformAny, roundTrip n m hm1 hm2 hn od h]
  | .ContinueStatement, _ => by simp [AlphaRenamer.transformAny]
  | .NumberLiteral v, _ => by simp [AlphaRenamer.transformAny]
  | .ArrayLiteralExpression es, h => by
      simp only [occursName] at h
      simp [AlphaRenamer.transformAny, roundTripList n m hm1 hm2 hn es h]
  | .ReturnStatement e, h => by
      simp only [occursName] at h
      simp [AlphaRenamer.transformAny, roundTripOpt n m hm1 hm2 hn e h]

/-- List version of `roundTrip`. -/
theorem roundTripList (n m : String) (hm1 : m ≠ "this") (hm2 : m ≠ "arguments")
    (hn : n ≠ "this") :
    ∀ ts, occursNameList m ts = false →
      AlphaRenamer.transformList m n (AlphaRenamer.transformList n m ts) = ts
  | .nil, _ => rfl
  | .cons t ts, h => by
      simp only [occursNameList, Bool.or_eq_false_iff] at h
      simp [AlphaRenamer.transformList, roundTrip n m hm1 hm2 hn t h.1,
        roundTripList n m hm1 hm2 hn ts h.2]

/-- Optional-child version of `roundTrip`. -/
theorem roundTripOpt (n m : String) (hm1 : m ≠ "this") (hm2 : m ≠ "arguments")
    (hn : n ≠ "this") :
    ∀ c, occursNameOpt m c = false →
      AlphaRenamer.transformOpt m n (AlphaRenamer.transformOpt n m c) = c
  | .none, _ => rfl
  | .some t, h => by
      simp only [occursNameOpt] at h
      simp [AlphaRenamer.transformOpt, roundTrip n m hm1 hm2 hn t h]

end

/-- C1: counterexample — the alpha-rename round trip fails as claimed, even
under both stated hypotheses. In `function m() {}` the name "m" has no free
occurrence ("occur free" read in the standard scoping sense: the declared
function name is a definition site, not a free use) and "q" does not occur at
all; yet AlphaRenamer.rename "q"→"m" followed by "m"→"q" yields
`function q() {}`, not the original tree: the back-rename unconditionally
rewrites the pre-existing definition site whose name happens to equal the
intermediate name. (The claim's explicit inclusion of the implicit "this"
binding fails for the same structural reason: renaming "this"→x turns a
this-expression into an ordinary identifier expression, and the back-rename
then produces `IdentifierExpression "this"`, which is not a
this-expression.) -/
theorem claim_C1_counterexample :
    occursFree "m" (.FunctionDeclaration "m" [] (.Block .nil)) = false ∧
    occursFree "q" (.FunctionDeclaration "m" [] (.Block .nil)) = false ∧
    AlphaRenamer.rename
        (AlphaRenamer.rename (.FunctionDeclaration "m" [] (.Block .nil)) "q" "m")
        "m" "q"
      ≠ .FunctionDeclaration "m" [] (.Block .nil) := by
  refine ⟨rfl, rfl, ?_⟩
  decide

/-- C1 (amended): the round trip `rename(rename(T, n, m), m, n) = T` holds
under the hygiene precondition the code actually needs: the intermediate name
`m` occurs nowhere in `T` at any position the renamer can read or rewrite
(not merely "not free": also not as a declared function name, formal
parameter, declaration lvalue or catch binding), `m` is neither of the
implicit bindings "this"/"arguments" (for which the back-rename refuses to
enter function bodies), and `n` is not the implicit "this" binding (whose
occurrences are rewritten into ordinary identifier expressions and cannot be
restored). -/
theorem claim_C1_roundtrip (t : ParseTree) (n m : String)
    (h : occursName m t = false) (hm1 : m ≠ "this") (hm2 : m ≠ "arguments")
    (hn : n ≠ "this") :
    AlphaRenamer.rename (AlphaRenamer.rename t n m) m n = t :=
  roundTrip n m hm1 hm2 hn t h

/-- Witness for the amended C1 at a concrete input: renaming a→b then b→a
over a block with a free use of `a` restores the original tree. -/
theorem claim_C1_roundtrip_witness :
    occursName "b"
        (.Block (.cons (.ExpressionStatement (.IdentifierExpression "a")) .nil))
      = false ∧
    AlphaRenamer.rename
        (AlphaRenamer.rename
          (.Block (.cons (.ExpressionStatement (.IdentifierExpression "a")) .nil))
          "a" "b")
        "b" "a"
      = .Block (.cons (.ExpressionStatement (.IdentifierExpression "a")) .nil) :=
  ⟨by decide,
   claim_C1_roundtrip
     (.Block (.cons (.ExpressionStatement (.IdentifierExpression "a")) .nil))
     "a" "b" (by decide) (by decide) (by decide) (by decide)⟩

/-- The spec's shadowing example `function f(x) { return x; }`. -/
def exampleFunction : ParseTree :=
  .FunctionDeclaration "f" ["x"]
    (.Block (.cons (.ReturnStatement (.some (.IdentifierExpression "x"))) .nil))

/-- C3: on a function declaration the renamer rewrites the declared name
exactly when it equals `oldName` (first two conjuncts: the name is rewritten
to `if oldName = name then newName else name` whether or not the body is
entered), and leaves every node of the body unchanged whenever `oldName` is
"arguments", "this", or bound directly within the function (formal parameters
and `var`-declared names). In particular renaming x→y in
`function f(x) { return x; }` leaves the body's `x` untouched, while renaming
f→g rewrites only the declared name. -/
theorem claim_C3_functionDeclaration :
    (∀ o n f ps b, (o = "arguments" ∨ o = "this" ∨ o ∈ variablesInFunction ps b) →
        AlphaRenamer.rename (.FunctionDeclaration f ps b) o n
          = .FunctionDeclaration (if o = f then n else f) ps b) ∧
    (∀ o n f ps b, ∃ b1, AlphaRenamer.rename (.FunctionDeclaration f ps b) o n
          = .FunctionDeclaration (if o = f then n else f) ps b1) ∧
    AlphaRenamer.rename exampleFunction "x" "y" = exampleFunction ∧
    AlphaRenamer.rename exampleFunction "f" "g"
      = .FunctionDeclaration "g" ["x"]
          (.Block (.cons (.ReturnStatement (.some (.IdentifierExpression "x"))) .nil)) := by
  refine ⟨?_, ?_, by decide, by decide⟩
  · intro o n f ps b hd
    simp only [AlphaRenamer.rename, AlphaRenamer.transformAny]
    rw [if_pos hd]
  · intro o n f ps b
    by_cases hd : o = "arguments" ∨ o = "this" ∨ o ∈ variablesInFunction ps b
    · exact ⟨b, by simp only [AlphaRenamer.rename, AlphaRenamer.transformAny]; rw [if_pos hd]⟩
    · exact ⟨AlphaRenamer.transformAny o n b, by
        simp only [AlphaRenamer.rename, AlphaRenamer.transformAny]; rw [if_neg hd]⟩

/-- Witness for C3 at a concrete input: renaming the parameter name x→y
does not change `function f(x) { return x; }` at all. -/
theorem claim_C3_functionDeclaration_witness :
    AlphaRenamer.rename
        (.FunctionDeclaration "f" ["x"]
          (.Block (.cons (.ReturnStatement (.some (.IdentifierExpression "x"))) .nil)))
        "x" "y"
      = .FunctionDeclaration "f" ["x"]
          (.Block (.cons (.ReturnStatement (.some (.IdentifierExpression "x"))) .nil)) :=
  claim_C3_functionDeclaration.1 "x" "y" "f" ["x"]
    (.Block (.cons (.ReturnStatement (.some (.IdentifierExpression "x"))) .nil))
    (by decide)

/-- C4: renaming stops at rebinding scopes and returns the very subtree it
was given: a block that binds `oldName` directly is returned unchanged, and a
catch clause whose plain (non-pattern) binding equals `oldName` is returned
unchanged. -/
theorem claim_C4_rebindingStops :
    (∀ o n ss, o ∈ variablesInBlock ss →
        AlphaRenamer.rename (.Block ss) o n = .Block ss) ∧
    (∀ o n b, AlphaRenamer.rename (.Catch (.IdentifierExpression o) b) o n
        = .Catch (.IdentifierExpression o) b) := by
  constructor
  · intro o n ss hb
    simp [AlphaRenamer.rename, AlphaRenamer.transformAny, hb]
  · intro o n b
    simp [AlphaRenamer.rename, AlphaRenamer.transformAny, catchBindsName]

/-- Witness for C4 at a concrete input: a block declaring `var x` is left
unchanged by renaming x→y. -/
theorem claim_C4_rebindingStops_witness :
    AlphaRenamer.rename
        (.Block (.cons
          (.VariableStatement (.VariableDeclarationList "var"
            (.cons (.VariableDeclaration "x" .none) .nil)))
          (.cons (.ExpressionStatement (.IdentifierExpression "x")) .nil)))
        "x" "y"
      = .Block (.cons
          (.VariableStatement (.VariableDeclarationList "var"
            (.cons (.VariableDeclaration "x" .none) .nil)))
          (.cons (.ExpressionStatement (.IdentifierExpression "x")) .nil)) :=
  claim_C4_rebindingStops.1 "x" "y"
    (.cons
      (.VariableStatement (.VariableDeclarationList "var"
        (.cons (.VariableDeclaration "x" .none) .nil)))
      (.cons (.ExpressionStatement (.IdentifierExpression "x")) .nil))
    (by decide)

/-- Modelled from the spec: the Unique Identifier Generator collaborator — a
pure counter whose generated names never collide with any identifier already
in the program or previously generated. `generateUniqueIdentifier` returns
`uidString g` and advances the counter to `g + 1`. -/
def uidString (g : Nat) : String := "$__" ++ toString g

namespace ForInTransformPass

/-- The statement list a transformed loop body contributes to the desugared
output: a block is spliced (its statements inlined directly, so break and
continue keep their original target), any other statement stands alone. -/
def bodyContribution (body : ParseTree) : PTList :=
  match body with
  | .Block ss => ss
  | t => .cons t .nil

/-- The staleness guard `if (!(KEY in COLLECTION)) continue;`. -/
def staleGuard (originalKey : ParseTree) (collection : String) : ParseTree :=
  .IfStatement
    (.UnaryExpression "!"
      (.ParenExpression
        (.BinaryOperator originalKey "in" (.IdentifierExpression collection))))
    .ContinueStatement
    .none

/-- The loop-variable dispatch of transformForInStatement: a declaration-list
initializer yields `DT KEY = $keys[$i];` built from its first declaration's
lvalue and the original declaration type; a plain identifier initializer
yields the assignment `KEY = $keys[$i];`; every other shape throws
"Invalid left hand side of for in loop". (The two "model artifact" errors
stand for the undefined-property accesses the original would perform on a
declaration list without a proper first declaration, a shape no parser
produces.) Returns (originalKey, assignOriginalKey). -/
def originalKeyFor (init lookup : ParseTree) : Except String (ParseTree × ParseTree) :=
  match init with
  | .VariableDeclarationList dt (.cons (.VariableDeclaration lv _) _) =>
      .ok (.IdentifierExpression lv,
           .VariableStatement (.VariableDeclarationList dt
             (.cons (.VariableDeclaration lv (.some lookup)) .nil)))
  | .VariableDeclarationList _ (.cons _ _) =>
      .error "model artifact: declarations[0] is not a variable declaration"
  | .VariableDeclarationList _ .nil =>
      .error "model artifact: declarations[0] of an empty declaration list"
  | .IdentifierExpression k =>
      .ok (.IdentifierExpression k,
           .ExpressionStatement (.BinaryOperator (.IdentifierExpression k) "=" lookup))
  | _ => .error "Invalid left hand side of for in loop"

mutual

/-- ForInTransformPass dispatch: the generic transformer default (structural
recursion over every child, threading the unique-identifier counter, modelled
from the spec for the base ParseTreeTransformer) with the single override
transformForInStatement, translated from
src/codegeneration/generator/ForInTransformPass.js: transform the body first
(bottom-up), generate the fresh names $keys, $collection, $p, $i in that
order, and emit the block
`var $keys = []; var $collection = COLLECTION;
for (var $p in $collection) $keys.push($p);
for (var $i = 0; $i < $keys.length; $i++) { ASSIGN; GUARD; BODY... }`.
A thrown Error is an `Except.error` carrying its message. -/
def transformAny : ParseTree → Nat → Except String (ParseTree × Nat)
  | .ForInStatement init coll body, g =>
      match transformAny body g with
      | .error e => .error e
      | .ok (body1, g0) =>
          let keys := uidString g0
          let collection := uidString (g0 + 1)
          let p := uidString (g0 + 2)
          let i := uidString (g0 + 3)
          let lookup := ParseTree.MemberLookupExpression
            (.IdentifierExpression keys) (.IdentifierExpression i)
          match originalKeyFor init lookup with
          | .error e => .error e
          | .ok (originalKey, assign) =>
              .ok (.Block (.cons
                    (.VariableStatement (.VariableDeclarationList "var"
                      (.cons (.VariableDeclaration keys
                        (.some (.ArrayLiteralExpression .nil))) .nil)))
                  (.cons
                    (.VariableStatement (.VariableDeclarationList "var"
                      (.cons (.VariableDeclaration collection (.some coll)) .nil)))
                  (.cons
                    (.ForInStatement
                      (.VariableDeclarationList "var"
                        (.cons (.VariableDeclaration p .none) .nil))
                      (.IdentifierExpression collection)
                      (.ExpressionStatement (.CallExpression
                        (.MemberExpression (.IdentifierExpression keys) "push")
                        (.cons (.IdentifierExpression p) .nil))))
                  (.cons
                    (.ForStatement
                      (.VariableDeclarationList "var"
                        (.cons (.VariableDeclaration i (.some (.NumberLiteral 0))) .nil))
                      (.BinaryOperator (.IdentifierExpression i) "<"
                        (.MemberExpression (.IdentifierExpression keys) "length"))
                      (.PostfixExpression (.IdentifierExpression i) "++")
                      (.Block (.cons assign
                        (.cons (staleGuard originalKey collection)
                          (bodyContribution body1)))))
                  .nil)))), g0 + 4)
  | .Program es, g =>
      match transformPTList es g with
      | .error e => .error e
      | .ok (es1, g1) => .ok (.Program es1, g1)
  | .Block ss, g =>
      match transformPTList ss g with
      | .error e => .error e
      | .ok (ss1, g1) => .ok (.Block ss1, g1)
  | .VariableStatement dl, g =>
      match transformAny dl g with
      | .error e => .error e
      | .ok (dl1, g1) => .ok (.VariableStatement dl1, g1)
  | .VariableDeclarationList dt ds, g =>
      match transformPTList ds g with
      | .error e => .error e
      | .ok (ds1, g1) => .ok (.VariableDeclarationList dt ds1, g1)
  | .VariableDeclaration lv i, g =>
      match transformPTOpt i g with
      | .error e => .error e
      | .ok (i1, g1) => .ok (.VariableDeclaration lv i1, g1)
  | .IdentifierExpression y, g => .ok (.IdentifierExpression y, g)
  | .ThisExpression, g => .ok (.ThisExpression, g)
  | .FunctionDeclaration f ps b, g =>
      match transformAny b g with
      | .error e => .error e
      | .ok (b1, g1) => .ok (.FunctionDeclaration f ps b1, g1)
  | .Catch bind b, g =>
      match transformAny bind g with
      | .error e => .error e
      | .ok (bind1, g1) =>
          match transformAny b g1 with
          | .error e => .error e
          | .ok (b1, g2) => .ok (.Catch bind1 b1, g2)
  | .BindingPattern ns, g => .ok (.BindingPattern ns, g)
  | .ForStatement i c inc b, g =>
      match transformAny i g with
      | .error e => .error e
      | .ok (i1, g1) =>
          match transformAny c g1 with
          | .error e => .error e
          | .ok (c1, g2) =>
              match transformAny inc g2 with
              | .error e => .error e
              | .ok (inc1, g3) =>
                  match transformAny b g3 with
                  | .error e => .error e
                  | .ok (b1, g4) => .ok (.ForStatement i1 c1 inc1 b1, g4)
  | .IfStatement c t e, g =>
      match transformAny c g with
      | .error e1 => .error e1
      | .ok (c1, g1) =>
          match transformAny t g1 with
          | .error e1 => .error e1
          | .ok (t1, g2) =>
              match transformPTOpt e g2 with
              | .error e1 => .error e1
              | .ok (e1, g3) => .ok (.IfStatement c1 t1 e1, g3)
  | .ExpressionStatement e, g =>
      match transformAny e g with
      | .error e1 => .error e1
      | .ok (e2, g1) => .ok (.ExpressionStatement e2, g1)
  | .CallExpression op args, g =>
      match transformAny op g with
      | .error e => .error e
      | .ok (op1, g1) =>
          match transformPTList args g1 with
          | .error e => .error e
          | .ok (args1, g2) => .ok (.CallExpression op1 args1, g2)
  | .MemberExpression op mn, g =>
      match transformAny op g with
      | .error e => .error e
      | .ok (op1, g1) => .ok (.MemberExpression op1 mn, g1)
  | .MemberLookupExpression op me, g =>
      match transformAny op g with
      | .error e => .error e
      | .ok (op1, g1) =>
          match transformAny me g1 with
          | .error e => .error e
          | .ok (me1, g2) => .ok (.MemberLookupExpression op1 me1, g2)
  | .BinaryOperator l op r, g =>
      match transformAny l g with
      | .error e => .error e
      | .ok (l1, g1) =>
          match transformAny r g1 with
          | .error e => .error e
          | .ok (r1, g2) => .ok (.BinaryOperator l1 op r1, g2)
  | .UnaryExpression op od, g =>
      match transformAny od g with
      | .error e => .error e
      | .ok (od1, g1) => .ok (.UnaryExpression op od1, g1)
  | .ParenExpression e, g =>
      match transformAny e g with
      | .error e1 => .error e1
      | .ok (e2, g1) => .ok (.ParenExpression e2, g1)
  | .PostfixExpression od op, g =>
      match transformAny od g with
      | .error e => .error e
      | .ok (od1, g1) => .ok (.PostfixExpression od1 op, g1)
  | .ContinueStatement, g => .ok (.ContinueStatement, g)
  | .NumberLiteral v, g => .ok (.NumberLiteral v, g)
  | .ArrayLiteralExpression es, g =>
      match transformPTList es g with
      | .error e => .error e
      | .ok (es1, g1) => .ok (.ArrayLiteralExpression es1, g1)
  | .ReturnStatement e, g =>
      match transformPTOpt e g with
      | .error e1 => .error e1
      | .ok (e1, g1) => .ok (.ReturnStatement e1, g1)

/-- Child-list traversal of the pass, threading the counter left to right. -/
def transformPTList : PTList → Nat → Except String (PTList × Nat)
  | .nil, g => .ok (.nil, g)
  | .cons t ts, g =>
      match transformAny t g with
      | .error e => .error e
      | .ok (t1, g1) =>
          match transformPTList ts g1 with
          | .error e => .error e
          | .ok (ts1, g2) => .ok (.cons t1 ts1, g2)

/-- Optional-child traversal of the pass. -/
def transformPTOpt : PTOpt → Nat → Except String (PTOpt × Nat)
  | .none, g => .ok (.none, g)
  | .some t, g =>
      match transformAny t g with
      | .error e => .error e
      | .ok (t1, g1) => .ok (.some t1, g1)

end

/-- ForInTransformPass.transformForInStatement as invoked through the
dispatch on a for-in node. -/
def transformForInStatement (initializer collection body : ParseTree) (g : Nat) :
    Except String (ParseTree × Nat) :=
  transformAny (.ForInStatement initializer collection body) g

end ForInTransformPass

/-- C2: desugaring a for-in whose loop-variable position is a
variable-declaration list (first conjunct, with `lv` the first declaration's
lvalue and `dt` its declaration type) or a plain identifier (second conjunct)
produces a block holding, in this exact order: (1) `var $keys = [];`,
(2) `var $collection = COLLECTION;` with the original collection expression
appearing exactly there, (3) a for-in over `$collection` pushing each key
onto `$keys`, and (4) a counted for loop from 0 while `$i < $keys.length`
incrementing by one, whose body is the declaration (resp. assignment) of the
original loop variable from `$keys[$i]`, then the guard
`if (!(KEY in $collection)) continue;`, then the recursively transformed
original body statements spliced in without an extra wrapping block. The
fresh names are the four successive generator outputs after the bottom-up
body transformation. -/
theorem claim_C2_forInDesugaring :
    ∀ coll body g body1 g0,
      ForInTransformPass.transformAny body g = .ok (body1, g0) →
      (∀ dt lv ini rest,
        ForInTransformPass.transformForInStatement
            (.VariableDeclarationList dt (.cons (.VariableDeclaration lv ini) rest))
            coll body g
          = .ok (.Block (.cons
              (.VariableStatement (.VariableDeclarationList "var"
                (.cons (.VariableDeclaration (uidString g0)
                  (.some (.ArrayLiteralExpression .nil))) .nil)))
            (.cons
              (.VariableStatement (.VariableDeclarationList "var"
                (.cons (.VariableDeclaration (uidString (g0 + 1)) (.some coll)) .nil)))
            (.cons
              (.ForInStatement
                (.VariableDeclarationList "var"
                  (.cons (.VariableDeclaration (uidString (g0 + 2)) .none) .nil))
                (.IdentifierExpression (uidString (g0 + 1)))
                (.ExpressionStatement (.CallExpression
                  (.MemberExpression (.IdentifierExpression (uidString g0)) "push")
                  (.cons (.IdentifierExpression (uidString (g0 + 2))) .nil))))
            (.cons
              (.ForStatement
                (.VariableDeclarationList "var"
                  (.cons (.VariableDeclaration (uidString (g0 + 3))
                    (.some (.NumberLiteral 0))) .nil))
                (.BinaryOperator (.IdentifierExpression (uidString (g0 + 3))) "<"
                  (.MemberExpression (.IdentifierExpression (uidString g0)) "length"))
                (.PostfixExpression (.IdentifierExpression (uidString (g0 + 3))) "++")
                (.Block (.cons
                  (.VariableStatement (.VariableDeclarationList dt
                    (.cons (.VariableDeclaration lv
                      (.some (.MemberLookupExpression
                        (.IdentifierExpression (uidString g0))
                        (.IdentifierExpression (uidString (g0 + 3)))))) .nil)))
                  (.cons (ForInTransformPass.staleGuard
                      (.IdentifierExpression lv) (uidString (g0 + 1)))
                    (ForInTransformPass.bodyContribution body1)))))
            .nil)))), g0 + 4)) ∧
      (∀ k,
        ForInTransformPass.transformForInStatement
            (.IdentifierExpression k) coll body g
          = .ok (.Block (.cons
              (.VariableStatement (.VariableDeclarationList "var"
                (.cons (.VariableDeclaration (uidString g0)
                  (.some (.ArrayLiteralExpression .nil))) .nil)))
            (.cons
              (.VariableStatement (.VariableDeclarationList "var"
                (.cons (.VariableDeclaration (uidString (g0 + 1)) (.some coll)) .nil)))
            (.cons
              (.ForInStatement
                (.VariableDeclarationList "var"
                  (.cons (.VariableDeclaration (uidString (g0 + 2)) .none) .nil))
                (.IdentifierExpression (uidString (g0 + 1)))
                (.ExpressionStatement (.CallExpression
                  (.MemberExpression (.IdentifierExpression (uidString g0)) "push")
                  (.cons (.IdentifierExpression (uidString (g0 + 2))) .nil))))
            (.cons
              (.ForStatement
                (.VariableDeclarationList "var"
                  (.cons (.VariableDeclaration (uidString (g0 + 3))
                    (.some (.NumberLiteral 0))) .nil))
                (.BinaryOperator (.IdentifierExpression (uidString (g0 + 3))) "<"
                  (.MemberExpression (.IdentifierExpression (uidString g0)) "length"))
                (.PostfixExpression (.IdentifierExpression (uidString (g0 + 3))) "++")
                (.Block (.cons
                  (.ExpressionStatement (.BinaryOperator (.IdentifierExpression k) "="
                    (.MemberLookupExpression
                      (.IdentifierExpression (uidString g0))
                      (.IdentifierExpression (uidString (g0 + 3))))))
                  (.cons (ForInTransformPass.staleGuard
                      (.IdentifierExpression k) (uidString (g0 + 1)))
                    (ForInTransformPass.bodyContribution body1)))))
            .nil)))), g0 + 4)) := by
  intro coll body g body1 g0 h
  constructor
  · intro dt lv ini rest
    simp [ForInTransformPass.transformForInStatement, ForInTransformPass.transformAny,
      h, ForInTransformPass.originalKeyFor]
  · intro k
    simp [ForInTransformPass.transformForInStatement, ForInTransformPass.transformAny,
      h, ForInTransformPass.originalKeyFor]

/-- Witness for C2 at a concrete input: desugaring
`for (var k in obj) f(k);` from a fresh generator. -/
theorem claim_C2_forInDesugaring_witness :
    ForInTransformPass.transformForInStatement
        (.VariableDeclarationList "var" (.cons (.VariableDeclaration "k" .none) .nil))
        (.IdentifierExpression "obj")
        (.ExpressionStatement (.CallExpression (.IdentifierExpression "f")
          (.cons (.IdentifierExpression "k") .nil)))
        0
      = .ok (.Block (.cons
          (.VariableStatement (.VariableDeclarationList "var"
            (.cons (.VariableDeclaration (uidString 0)
              (.some (.ArrayLiteralExpression .nil))) .nil)))
        (.cons
          (.VariableStatement (.VariableDeclarationList "var"
            (.cons (.VariableDeclaration (uidString 1)
              (.some (.IdentifierExpression "obj"))) .nil)))
        (.cons
          (.ForInStatement
            (.VariableDeclarationList "var"
              (.cons (.VariableDeclaration (uidString 2) .none) .nil))
            (.IdentifierExpression (uidString 1))
            (.ExpressionStatement (.CallExpression
              (.MemberExpression (.IdentifierExpression (uidString 0)) "push")
              (.cons (.IdentifierExpression (uidString 2)) .nil))))
        (.cons
          (.ForStatement
            (.VariableDeclarationList "var"
              (.cons (.VariableDeclaration (uidString 3)
                (.some (.NumberLiteral 0))) .nil))
            (.BinaryOperator (.IdentifierExpression (uidString 3)) "<"
              (.MemberExpression (.IdentifierExpression (uidString 0)) "length"))
            (.PostfixExpression (.IdentifierExpression (uidString 3)) "++")
            (.Block (.cons
              (.VariableStatement (.VariableDeclarationList "var"
                (.cons (.VariableDeclaration "k"
                  (.some (.MemberLookupExpression
                    (.IdentifierExpression (uidString 0))
                    (.IdentifierExpression (uidString 3))))) .nil)))
              (.cons (ForInTransformPass.staleGuard
                  (.IdentifierExpression "k") (uidString 1))
                (.cons (.ExpressionStatement (.CallExpression (.IdentifierExpression "f")
                  (.cons (.IdentifierExpression "k") .nil))) .nil)))))
        .nil)))), 4) :=
  (claim_C2_forInDesugaring (.IdentifierExpression "obj")
    (.ExpressionStatement (.CallExpression (.IdentifierExpression "f")
      (.cons (.IdentifierExpression "k") .nil)))
    0
    (.ExpressionStatement (.CallExpression (.IdentifierExpression "f")
      (.cons (.IdentifierExpression "k") .nil)))
    0 rfl).1 "var" "k" .none .nil

/-- The loop-variable shapes transformForInStatement rejects: anything that
is neither a variable-declaration list nor an identifier expression. -/
def invalidForInLhs (init : ParseTree) : Bool :=
  match init with
  | .VariableDeclarationList _ _ => false
  | .IdentifierExpression _ => false
  | _ => true

/-- C8: counterexample — a declaration list holding two declarations is
accepted, not rejected: transformForInStatement desugars
`for (var a, b in obj) {}` (using the first declaration) instead of raising
"Invalid left hand side of for in loop". -/
theorem claim_C8_counterexample :
    (ForInTransformPass.transformForInStatement
        (.VariableDeclarationList "var"
          (.cons (.VariableDeclaration "a" .none)
            (.cons (.VariableDeclaration "b" .none) .nil)))
        (.IdentifierExpression "obj") (.Block .nil) 0).isOk = true := rfl

/-- C8 (amended): the malformed-input error is raised exactly for
loop-variable positions that are neither a variable-declaration list (of any
arity: the type check does not count declarations, and a multi-declaration
list is accepted, desugaring via its first declaration) nor a plain
identifier reference; for every such shape the transform throws
"Invalid left hand side of for in loop" instead of producing output. -/
theorem claim_C8_invalidLhs (init coll body : ParseTree) (g : Nat)
    (body1 : ParseTree) (g0 : Nat)
    (hbody : ForInTransformPass.transformAny body g = .ok (body1, g0))
    (hbad : invalidForInLhs init = true) :
    ForInTransformPass.transformForInStatement init coll body g
      = .error "Invalid left hand side of for in loop" := by
  cases init <;> first
    | exact Bool.noConfusion hbad
    | simp [ForInTransformPass.transformForInStatement, ForInTransformPass.transformAny,
        hbody, ForInTransformPass.originalKeyFor]

/-- Witness for the amended C8 at a concrete input: a member expression
`obj.x` as loop variable is rejected. -/
theorem claim_C8_invalidLhs_witness :
    ForInTransformPass.transformForInStatement
        (.MemberExpression (.IdentifierExpression "obj") "x")
        (.IdentifierExpression "coll") (.Block .nil) 0
      = .error "Invalid left hand side of for in loop" :=
  claim_C8_invalidLhs (.MemberExpression (.IdentifierExpression "obj") "x")
    (.IdentifierExpression "coll") (.Block .nil) 0 (.Block .nil) 0 rfl rfl

/-- The initializer expression of the second statement of a desugared for-in
block: the slot holding `$collection = COLLECTION`. -/
def collectionSlot (out : ParseTree) : PTOpt :=
  match out with
  | .Block (.cons _ (.cons (.VariableStatement (.VariableDeclarationList _
      (.cons (.VariableDeclaration _ i) _))) _)) => i
  | _ => .none

/-- `collectionSlot` through the pass's result type. -/
def collectionSlotE (r : Except String (ParseTree × Nat)) : PTOpt :=
  match r with
  | .ok (out, _) => collectionSlot out
  | .error _ => .none

/-- The first statement of the counted loop's body in a desugared for-in
block: the slot holding the assignment or declaration of the original loop
variable. -/
def assignSlotE (r : Except String (ParseTree × Nat)) : PTOpt :=
  match r with
  | .ok (.Block (.cons _ (.cons _ (.cons _ (.cons
      (.ForStatement _ _ _ (.Block (.cons a _))) _)))), _) => .some a
  | _ => .none

/-- A collection expression containing a nested for-in (inside a function
expression), used to demonstrate that the pass does not descend into the
collection position. -/
def collectionWithNestedForIn : ParseTree :=
  .ParenExpression (.FunctionDeclaration "fn" []
    (.Block (.cons
      (.ForInStatement (.IdentifierExpression "a") (.IdentifierExpression "b")
        (.Block .nil)) .nil)))

/-- C10: transformForInStatement recursively transforms only the loop body.
First conjunct: whenever the transform succeeds, the `$collection`
declaration's initializer is the original collection expression itself,
untransformed. Second and third conjuncts, at a concrete input whose
collection contains a nested for-in: the collection is copied verbatim — the
nested for-in inside it is not desugared — and the assignment statement
reuses the original identifier initializer verbatim. -/
theorem claim_C10_frameEffect :
    (∀ init coll body g body1 g0,
      ForInTransformPass.transformAny body g = .ok (body1, g0) →
      (ForInTransformPass.transformForInStatement init coll body g).isOk = true →
      collectionSlotE (ForInTransformPass.transformForInStatement init coll body g)
        = .some coll) ∧
    collectionSlotE (ForInTransformPass.transformForInStatement
        (.IdentifierExpression "k") collectionWithNestedForIn (.Block .nil) 0)
      = .some collectionWithNestedForIn ∧
    assignSlotE (ForInTransformPass.transformForInStatement
        (.IdentifierExpression "k") collectionWithNestedForIn (.Block .nil) 0)
      = .some (.ExpressionStatement (.BinaryOperator (.IdentifierExpression "k") "="
          (.MemberLookupExpression (.IdentifierExpression (uidString 0))
            (.IdentifierExpression (uidString 3))))) := by
  refine ⟨?_, rfl, rfl⟩
  intro init coll body g body1 g0 hbody hok
  cases init with
  | VariableDeclarationList dt ds =>
      cases ds with
      | nil =>
          simp [ForInTransformPass.transformForInStatement,
            ForInTransformPass.transformAny, hbody,
            ForInTransformPass.originalKeyFor, Except.isOk, Except.toBool] at hok
      | cons d rest =>
          cases d <;>
            simp [ForInTransformPass.transformForInStatement,
              ForInTransformPass.transformAny, hbody,
              ForInTransformPass.originalKeyFor, Except.isOk, Except.toBool, collectionSlotE,
              collectionSlot] at hok ⊢
  | IdentifierExpression k =>
      simp [ForInTransformPass.transformForInStatement,
        ForInTransformPass.transformAny, hbody,
        ForInTransformPass.originalKeyFor, collectionSlotE, collectionSlot]
  | _ =>
      simp [ForInTransformPass.transformForInStatement,
        ForInTransformPass.transformAny, hbody,
        ForInTransformPass.originalKeyFor, Except.isOk, Except.toBool] at hok

/-- Witness for C10 at a concrete input: `for (k in obj) {}` keeps `obj` as
the `$collection` initializer. -/
theorem claim_C10_frameEffect_witness :
    collectionSlotE (ForInTransformPass.transformForInStatement
        (.IdentifierExpression "k") (.IdentifierExpression "obj") (.Block .nil) 0)
      = .some (.IdentifierExpression "obj") :=
  claim_C10_frameEffect.1 (.IdentifierExpression "k") (.IdentifierExpression "obj")
    (.Block .nil) 0 (.Block .nil) 0 rfl rfl

namespace RuntimeInliner

/-- One registry entry: the parsed helper expression, its unique identifier,
and whether it has already been inserted into the program. -/
structure Entry where
  expression : ParseTree
  uid : String
  inserted : Bool
  deriving DecidableEq

/-- The RuntimeInliner state: the unique-identifier counter of its generator
and the name-keyed registry, kept in insertion order (JS object property
order for string keys, which `Object.keys` reproduces). -/
structure Registry where
  gen : Nat
  map : List (String × Entry)
  deriving DecidableEq

/-- The predefined shared helper source for "toObject" (the braces of the
function body are written as escapes). -/
def toObjectSource : String :=
  "function(value) \x7b\n        if (value == null)\n          throw TypeError();\n        return Object(value);\n      \x7d"

/-- The `shared` map of predefined helper definition texts. -/
def sharedSource : String → Option String
  | "toObject" => some toObjectSource
  | _ => none

/-- A placeholder-name character: the regex class [a-zA-Z0-9_$]. -/
def isPlaceholderChar (c : Char) : Bool :=
  c.isAlphanum || c = '_' || c = '$'

/-- Registry lookup, JS `map_[name]` (`none` is JS `undefined`). -/
def lookupEntry : List (String × Entry) → String → Option Entry
  | [], _ => none
  | kv :: rest, name => if kv.1 = name then some kv.2 else lookupEntry rest name

/-- JS `name in map_`. -/
def containsName (m : List (String × Entry)) (name : String) : Bool :=
  (lookupEntry m name).isSome

/-- JS property assignment `map_[name] = entry`: replaces the entry in place
when the key exists (keeping its position in the key order), appends a new
property otherwise. -/
def insertEntry : List (String × Entry) → String → Entry → List (String × Entry)
  | [], name, e => [(name, e)]
  | kv :: rest, name, e =>
      if kv.1 = name then (name, e) :: rest
      else kv :: insertEntry rest name e

/-- Finishes one pending placeholder of the replace scan: an empty pending
run is a lone `%` (the regex requires at least one name character, so the
`%` is emitted unchanged); a non-empty run applies the replace callback and
splices its replacement text. -/
def applyPlaceholder
    (callback : Registry → String → Except (String × Registry) (String × Registry))
    (st : Registry) (ident : List Char) (acc : String) :
    Except (String × Registry) (String × Registry) :=
  match ident with
  | [] => .ok (acc.push '%', st)
  | pc :: pcs =>
      match callback st (String.mk (pc :: pcs)) with
      | .error e => .error e
      | .ok (rep, st1) => .ok (acc ++ rep, st1)

/-- The `source.replace(/%([a-zA-Z0-9_$]+)/g, callback)` scan as a one-pass
state machine over the characters: `pending = none` outside a placeholder;
`pending = some run` after a `%`, accumulating the maximal run of name
characters; the callback is applied when the run ends (at a non-name
character or at the end of the text) and may change the registry. Matches are
found left to right exactly as the global regex does. -/
def expandPlaceholders
    (callback : Registry → String → Except (String × Registry) (String × Registry)) :
    Registry → List Char → String → Option (List Char) →
      Except (String × Registry) (String × Registry)
  | st, [], acc, Option.none => .ok (acc, st)
  | st, [], acc, Option.some ident => applyPlaceholder callback st ident acc
  | st, c :: rest, acc, Option.none =>
      if c = '%' then expandPlaceholders callback st rest acc (Option.some [])
      else expandPlaceholders callback st rest (acc.push c) Option.none
  | st, c :: rest, acc, Option.some ident =>
      if isPlaceholderChar c then
        expandPlaceholders callback st rest acc (Option.some (ident ++ [c]))
      else
        match applyPlaceholder callback st ident acc with
        | .error e => .error e
        | .ok (acc1, st1) =>
            if c = '%' then expandPlaceholders callback st1 rest acc1 (Option.some [])
            else expandPlaceholders callback st1 rest (acc1.push c) Option.none

/-- The replace callback of RuntimeInliner.register for one placeholder
name: `if (name in shared) self.register(name, shared[name]); return
self.getAsString(name);` — the recursive shared registration is the
`registerShared` parameter, and a getAsString on an absent entry fails like
the original's undefined-property access, carrying the registry state at the
throw. -/
def replaceCallback
    (registerShared : Registry → String → String → Except (String × Registry) Registry)
    (st : Registry) (pname : String) :
    Except (String × Registry) (String × Registry) :=
  match (match sharedSource pname with
         | Option.some text => registerShared st pname text
         | Option.none => .ok st) with
  | .error e => .error e
  | .ok st1 =>
      match lookupEntry st1.map pname with
      | Option.some entry => .ok (entry.uid, st1)
      | Option.none =>
          .error ("TypeError: undefined has no property uid (getAsString "
            ++ pname ++ ")", st1)

/-- RuntimeInliner.register with the shared-helper registration step
abstracted: a no-op when `name` is already registered; otherwise expands the
%placeholders of `source`, parses the result with the external parser
collaborator `parse`, assigns the next unique identifier and stores the entry
not-yet-inserted (JS property assignment, so a shared self-registration made
during expansion is overwritten, never duplicated). An error carries the
registry state at the throw point — a JS exception leaves earlier mutations
in place. -/
def registerWith (parse : String → ParseTree)
    (registerShared : Registry → String → String → Except (String × Registry) Registry)
    (st : Registry) (name source : String) :
    Except (String × Registry) Registry :=
  if containsName st.map name then .ok st
  else
    match expandPlaceholders (replaceCallback registerShared) st source.data ""
        Option.none with
    | .error e => .error e
    | .ok (source1, st1) =>
        .ok { gen := st1.gen + 1,
              map := insertEntry st1.map name
                { expression := parse source1, uid := uidString st1.gen,
                  inserted := false } }

/-- RuntimeInliner.register. `fuel` bounds the depth of the transitive
shared-helper registration chain, which the spec guarantees is acyclic (the
concrete shared map has depth 1, so every positive fuel behaves like the
unbounded original; the fuel-exhaustion error is a model artifact no
acyclic chain reaches). -/
def register (parse : String → ParseTree) :
    Nat → Registry → String → String → Except (String × Registry) Registry
  | 0 => registerWith parse (fun st1 _ _ =>
      .error ("model artifact: shared-helper fuel exhausted", st1))
  | fuel + 1 => registerWith parse (fun st1 p text => register parse fuel st1 p text)

/-- RuntimeInliner.get: returns the identifier expression of the helper's
unique identifier, registering the helper first when absent. The source used
for that registration is the predefined shared definition whenever one
exists for `name` — the code overwrites `opt_source` with `shared[name]`
before asserting — else the caller's `opt_source`; a missing source (or an
empty one: `traceur.assert` tests JS truthiness) is a fatal assert. -/
def get (parse : String → ParseTree) (fuel : Nat) (st : Registry)
    (name : String) (optSource : Option String) :
    Except (String × Registry) (ParseTree × Registry) :=
  match (if containsName st.map name then (.ok st : Except (String × Registry) Registry)
         else
           match (match sharedSource name with
                  | Option.some s => Option.some s
                  | Option.none => optSource) with
           | Option.none => .error ("traceur.assert(opt_source) failed", st)
           | Option.some s =>
               if s = "" then .error ("traceur.assert(opt_source) failed", st)
               else register parse fuel st name s) with
  | .error e => .error e
  | .ok st1 =>
      match lookupEntry st1.map name with
      | Option.some entry => .ok (.IdentifierExpression entry.uid, st1)
      | Option.none =>
          .error ("TypeError: undefined has no property uid (getAsIdentifierExpression "
            ++ name ++ ")", st1)

/-- RuntimeInliner.transformProgram: returns the program unchanged when the
registry is empty; otherwise collects the entries not yet inserted, marks
them inserted, and — when any exist — prepends one variable statement
binding each such entry's unique identifier to its parsed expression before
all original program elements. Invoked only on Program nodes; anything else
is returned unchanged. -/
def transformProgram (st : Registry) : ParseTree → ParseTree × Registry
  | .Program es =>
      if st.map.isEmpty then (.Program es, st)
      else
        let notInserted := st.map.filter (fun kv => !kv.2.inserted)
        if notInserted.isEmpty then (.Program es, st)
        else
          (.Program (.cons
              (.VariableStatement (.VariableDeclarationList "var"
                (PTList.ofList (notInserted.map (fun kv =>
                  ParseTree.VariableDeclaration kv.2.uid (.some kv.2.expression))))))
              es),
            { st with map := st.map.map (fun kv => (kv.1, { kv.2 with inserted := true })) })
  | t => (t, st)

/-- The property keys of the registry, in order. -/
def registryKeys (m : List (String × Entry)) : List String :=
  m.map Prod.fst

/-- The number of entries a registry holds for one name. -/
def countName (m : List (String × Entry)) (name : String) : Nat :=
  (m.filter (fun kv => kv.1 = name)).length

/-- `name in map_` is membership in the key list. -/
theorem containsName_eq_mem (name : String) :
    ∀ m, containsName m name = true ↔ name ∈ registryKeys m
  | [] => by simp [containsName, lookupEntry, registryKeys]
  | kv :: rest => by
      by_cases h : kv.1 = name
      · simp [containsName, lookupEntry, registryKeys, h]
      · simp only [containsName, lookupEntry, if_neg h, registryKeys, List.map_cons,
          List.mem_cons]
        rw [← registryKeys, ← containsName]
        constructor
        · intro hc
          exact Or.inr ((containsName_eq_mem name rest).1 hc)
        · rintro (e | e)
          · exact absurd e.symm h
          · exact (containsName_eq_mem name rest).2 e

/-- Property assignment keeps the key order, appending the key only when it
is new. -/
theorem registryKeys_insertEntry (name : String) (e : Entry) :
    ∀ m, registryKeys (insertEntry m name e)
      = if containsName m name = true then registryKeys m
        else registryKeys m ++ [name]
  | [] => by simp [insertEntry, registryKeys, containsName, lookupEntry]
  | kv :: rest => by
      by_cases h : kv.1 = name
      · simp [insertEntry, registryKeys, containsName, lookupEntry, h]
      · simp only [insertEntry, if_neg h, registryKeys, List.map_cons, containsName,
          lookupEntry]
        rw [← registryKeys, ← registryKeys, ← containsName,
          registryKeys_insertEntry name e rest]
        split <;> simp

/-- Assignment of a name puts it among the keys. -/
theorem containsName_insertEntry (name : String) (e : Entry) (m : List (String × Entry)) :
    containsName (insertEntry m name e) name = true := by
  rw [containsName_eq_mem, registryKeys_insertEntry]
  split
  · rw [← containsName_eq_mem]
    assumption
  · simp

/-- No-duplicate-keys invariant: the registry never holds two entries for one
name. -/
def keysNodup (m : List (String × Entry)) : Prop :=
  (registryKeys m).Nodup

/-- Property assignment preserves the no-duplicate-keys invariant. -/
theorem keysNodup_insertEntry (name : String) (e : Entry) (m : List (String × Entry))
    (h : keysNodup m) : keysNodup (insertEntry m name e) := by
  unfold keysNodup
  rw [registryKeys_insertEntry]
  split
  · exact h
  · next hc =>
      simp only [List.nodup_append, List.nodup_cons, List.nodup_nil]
      refine ⟨h, by simp, ?_⟩
      intro a ha hb
      simp only [List.mem_singleton] at hb
      rw [hb] at ha
      exact absurd ((containsName_eq_mem name m).2 ha) (by simpa using hc)

/-- Under the invariant, a name has at most one entry. -/
theorem countName_le_one (m : List (String × Entry)) (h : keysNodup m) (name : String) :
    countName m name ≤ 1 := by
  unfold keysNodup registryKeys at h
  induction m with
  | nil => simp [countName]
  | cons kv rest ih =>
      simp only [List.map_cons, List.nodup_cons] at h
      by_cases he : kv.1 = name
      · subst he
        have : countName rest kv.1 = 0 := by
          unfold countName
          rw [List.length_eq_zero]
          rw [List.filter_eq_nil_iff]
          intro a ha
          simp only [decide_eq_true_eq]
          intro e
          exact h.1 (e ▸ List.mem_map_of_mem Prod.fst ha)
        simp only [countName, List.filter_cons, decide_eq_true_eq, if_pos rfl]
        simp only [countName] at this
        simp [this]
      · simp only [countName, List.filter_cons, decide_eq_true_eq, if_neg he]
        exact ih h.2

/-- A registered name has at least one entry. -/
theorem countName_pos (name : String) :
    ∀ m, containsName m name = true → 1 ≤ countName m name
  | [] => by simp [containsName, lookupEntry]
  | kv :: rest => by
      by_cases h : kv.1 = name
      · simp [countName, List.filter_cons, h]
      · simp only [containsName, lookupEntry, if_neg h]
        intro hc
        simpa [countName, List.filter_cons, h] using countName_pos name rest hc

/-- If a name is an existing key, assignment leaves the entry count as is;
for a new name it makes it one. -/
theorem countName_insertEntry (name : String) (e : Entry) :
    ∀ m, countName (insertEntry m name e) name
      = if containsName m name = true then countName m name else countName m name + 1
  | [] => by simp [insertEntry, countName, containsName, lookupEntry]
  | kv :: rest => by
      by_cases h : kv.1 = name
      · simp [insertEntry, countName, containsName, lookupEntry, h, List.filter_cons]
      · simp only [insertEntry, if_neg h, countName, List.filter_cons,
          decide_eq_true_eq, if_neg h, containsName, lookupEntry]
        rw [← countName, ← countName, ← containsName, countName_insertEntry name e rest]

/-- The placeholder scan preserves any registry invariant its callback
preserves (on success). -/
theorem expandPlaceholders_preserves
    (cb : Registry → String → Except (String × Registry) (String × Registry))
    (P : Registry → Prop)
    (hcb : ∀ st p s st1, cb st p = .ok (s, st1) → P st → P st1) :
    ∀ cs st acc pending s1 st1,
      expandPlaceholders cb st cs acc pending = .ok (s1, st1) → P st → P st1 := by
  intro cs
  induction cs with
  | nil =>
      intro st acc pending s1 st1 h hp
      cases pending with
      | none =>
          simp only [expandPlaceholders] at h
          cases h
          exact hp
      | some ident =>
          cases ident with
          | nil =>
              simp only [expandPlaceholders, applyPlaceholder] at h
              cases h
              exact hp
          | cons pc pcs =>
              simp only [expandPlaceholders, applyPlaceholder] at h
              cases hc : cb st (String.mk (pc :: pcs)) with
              | error e => rw [hc] at h; cases h
              | ok pr =>
                  rw [hc] at h
                  cases h
                  exact hcb st _ _ _ hc hp
  | cons c rest ih =>
      intro st acc pending s1 st1 h hp
      cases pending with
      | none =>
          simp only [expandPlaceholders] at h
          by_cases hc : c = '%'
          · rw [if_pos hc] at h
            exact ih st acc _ s1 st1 h hp
          · rw [if_neg hc] at h
            exact ih st _ _ s1 st1 h hp
      | some ident =>
          simp only [expandPlaceholders] at h
          by_cases hpc : isPlaceholderChar c = true
          · rw [if_pos hpc] at h
            exact ih st acc _ s1 st1 h hp
          · rw [if_neg hpc] at h
            cases hap : applyPlaceholder cb st ident acc with
            | error e => rw [hap] at h; cases h
            | ok pr =>
                obtain ⟨acc1, st2⟩ := pr
                rw [hap] at h
                dsimp only at h
                have hp1 : P st2 := by
                  cases ident with
                  | nil =>
                      simp only [applyPlaceholder] at hap
                      cases hap
                      exact hp
                  | cons pc pcs =>
                      simp only [applyPlaceholder] at hap
                      cases hcall : cb st (String.mk (pc :: pcs)) with
                      | error e => rw [hcall] at hap; cases hap
                      | ok pr2 =>
                          obtain ⟨rep, st3⟩ := pr2
                          rw [hcall] at hap
                          dsimp only at hap
                          cases hap
                          exact hcb st _ _ _ hcall hp
                by_cases hc : c = '%'
                · rw [if_pos hc] at h
                  exact ih st2 _ _ s1 st1 h hp1
                · rw [if_neg hc] at h
                  exact ih st2 _ _ s1 st1 h hp1

/-- The register callback for one placeholder preserves any invariant the
shared registration step preserves. -/
theorem replaceCallback_preserves
    (rs : Registry → String → String → Except (String × Registry) Registry)
    (P : Registry → Prop)
    (hrs : ∀ st p t st1, rs st p t = .ok st1 → P st → P st1) :
    ∀ st p s st1, replaceCallback rs st p = .ok (s, st1) → P st → P st1 := by
  intro st p s st1 h hp
  unfold replaceCallback at h
  cases hs : sharedSource p with
  | some text =>
      rw [hs] at h
      dsimp only at h
      cases hr : rs st p text with
      | error e =>
          rw [hr] at h
          dsimp only at h
          cases h
      | ok st2 =>
          rw [hr] at h
          dsimp only at h
          cases hl : lookupEntry st2.map p with
          | none =>
              rw [hl] at h
              dsimp only at h
              cases h
          | some entry =>
              rw [hl] at h
              dsimp only at h
              cases h
              exact hrs st p text st1 hr hp
  | none =>
      rw [hs] at h
      dsimp only at h
      cases hl : lookupEntry st.map p with
      | none =>
          rw [hl] at h
          dsimp only at h
          cases h
      | some entry =>
          rw [hl] at h
          dsimp only at h
          cases h
          exact hp

/-- registerWith preserves the no-duplicate-keys invariant whenever its
shared registration step does. -/
theorem keysNodup_registerWith (parse : String → ParseTree)
    (rs : Registry → String → String → Except (String × Registry) Registry)
    (hrs : ∀ st p t st1, rs st p t = .ok st1 → keysNodup st.map → keysNodup st1.map)
    (st : Registry) (name source : String) (st1 : Registry)
    (h : registerWith parse rs st name source = .ok st1)
    (hp : keysNodup st.map) : keysNodup st1.map := by
  unfold registerWith at h
  by_cases hc : containsName st.map name = true
  · rw [if_pos hc] at h
    cases h
    exact hp
  · rw [if_neg hc] at h
    cases he : expandPlaceholders (replaceCallback rs) st source.data "" Option.none with
    | error e => rw [he] at h; cases h
    | ok pr =>
        obtain ⟨source1, stE⟩ := pr
        rw [he] at h
        dsimp only at h
        cases h
        exact keysNodup_insertEntry name _ stE.map
          (expandPlaceholders_preserves (replaceCallback rs) (fun r => keysNodup r.map)
            (replaceCallback_preserves rs (fun r => keysNodup r.map) hrs)
            source.data st "" Option.none source1 stE he hp)

/-- register preserves the no-duplicate-keys invariant. -/
theorem keysNodup_register (parse : String → ParseTree) :
    ∀ fuel st name source st1,
      register parse fuel st name source = .ok st1 →
      keysNodup st.map → keysNodup st1.map
  | 0, st, name, source, st1 => by
      intro h hp
      exact keysNodup_registerWith parse _ (by intro _ _ _ _ hcontra; cases hcontra)
        st name source st1 h hp
  | fuel + 1, st, name, source, st1 => by
      intro h hp
      exact keysNodup_registerWith parse _
        (fun st2 p t st3 h2 hp2 => keysNodup_register parse fuel st2 p t st3 h2 hp2)
        st name source st1 h hp

/-- After a successful registerWith the name is registered. -/
theorem registerWith_registers (parse : String → ParseTree)
    (rs : Registry → String → String → Except (String × Registry) Registry)
    (st : Registry) (name source : String) (st1 : Registry)
    (h : registerWith parse rs st name source = .ok st1) :
    containsName st1.map name = true := by
  unfold registerWith at h
  by_cases hc : containsName st.map name = true
  · rw [if_pos hc] at h
    cases h
    exact hc
  · rw [if_neg hc] at h
    cases he : expandPlaceholders (replaceCallback rs) st source.data "" Option.none with
    | error e => rw [he] at h; cases h
    | ok pr =>
        obtain ⟨source1, stE⟩ := pr
        rw [he] at h
        dsimp only at h
        cases h
        exact containsName_insertEntry name _ stE.map

/-- After a successful register the name is registered. -/
theorem register_registers (parse : String → ParseTree) (fuel : Nat) (st : Registry)
    (name source : String) (st1 : Registry)
    (h : register parse fuel st name source = .ok st1) :
    containsName st1.map name = true := by
  cases fuel with
  | zero => exact registerWith_registers parse _ st name source st1 h
  | succ fuel => exact registerWith_registers parse _ st name source st1 h

end RuntimeInliner

/-- C5: registering an already-registered name is a complete no-op: the
registry — entries, inserted flags and the identifier counter — is returned
unchanged, so no fresh identifier is consumed (first conjunct); hence
registering the same name twice leaves the state of the first registration
(second conjunct); and every successful registration preserves the
never-two-entries-per-name invariant and leaves exactly one entry for the
registered name (third conjunct). -/
theorem claim_C5_registerIdempotent :
    (∀ parse fuel st name source, RuntimeInliner.containsName st.map name = true →
        RuntimeInliner.register parse fuel st name source = .ok st) ∧
    (∀ parse fuel fuel2 st name source st1,
        RuntimeInliner.register parse fuel st name source = .ok st1 →
        RuntimeInliner.register parse fuel2 st1 name source = .ok st1) ∧
    (∀ parse fuel st name source st1,
        RuntimeInliner.register parse fuel st name source = .ok st1 →
        RuntimeInliner.keysNodup st.map →
        RuntimeInliner.keysNodup st1.map ∧
          RuntimeInliner.countName st1.map name = 1) := by
  have noop : ∀ parse fuel st name source,
      RuntimeInliner.containsName st.map name = true →
      RuntimeInliner.register parse fuel st name source = .ok st := by
    intro parse fuel st name source h
    cases fuel <;> simp [RuntimeInliner.register, RuntimeInliner.registerWith, h]
  refine ⟨noop, ?_, ?_⟩
  · intro parse fuel fuel2 st name source st1 h
    exact noop parse fuel2 st1 name source
      (RuntimeInliner.register_registers parse fuel st name source st1 h)
  · intro parse fuel st name source st1 h hnd
    have hnd1 := RuntimeInliner.keysNodup_register parse fuel st name source st1 h hnd
    refine ⟨hnd1, le_antisymm (RuntimeInliner.countName_le_one st1.map hnd1 name) ?_⟩
    exact RuntimeInliner.countName_pos name st1.map
      (RuntimeInliner.register_registers parse fuel st name source st1 h)

namespace RuntimeInliner

/-- Pushing a character is appending a one-character string. -/
theorem push_append_mk (acc : String) (c : Char) (cs : List Char) :
    acc.push c ++ String.mk cs = acc ++ String.mk (c :: cs) := by
  obtain ⟨d⟩ := acc
  show String.mk ((d ++ [c]) ++ cs) = String.mk (d ++ (c :: cs))
  congr 1
  simp

/-- The empty string is a left identity of append. -/
theorem empty_append_string (s : String) : "" ++ s = s := by
  obtain ⟨d⟩ := s
  show String.mk ([] ++ d) = String.mk d
  simp

/-- The scan copies a placeholder-free prefix verbatim. -/
theorem expandPlaceholders_copy
    (cb : Registry → String → Except (String × Registry) (String × Registry)) :
    ∀ pre, (∀ c ∈ pre, c ≠ '%') → ∀ st rest acc,
      expandPlaceholders cb st (pre ++ rest) acc Option.none
        = expandPlaceholders cb st rest (acc ++ String.mk pre) Option.none
  | [], _ => by
      intro st rest acc
      have : acc ++ String.mk [] = acc := by
        obtain ⟨d⟩ := acc
        show String.mk (d ++ []) = String.mk d
        simp
      rw [List.nil_append, this]
  | c :: pre1, h => by
      intro st rest acc
      have hc : c ≠ '%' := h c (by simp)
      simp only [List.cons_append, expandPlaceholders, if_neg hc, List.append_eq]
      rw [expandPlaceholders_copy cb pre1 (fun d hd => h d (by simp [hd])) st rest
        (acc.push c), push_append_mk]

/-- The scan accumulates a maximal run of name characters into the pending
placeholder and finishes it at the end of the input. -/
theorem expandPlaceholders_ident
    (cb : Registry → String → Except (String × Registry) (String × Registry)) :
    ∀ p, (∀ c ∈ p, isPlaceholderChar c = true) → ∀ st acc ident,
      expandPlaceholders cb st p acc (Option.some ident)
        = applyPlaceholder cb st (ident ++ p) acc
  | [], _ => by
      intro st acc ident
      simp [expandPlaceholders]
  | c :: p1, h => by
      intro st acc ident
      have hc : isPlaceholderChar c = true := h c (by simp)
      simp only [expandPlaceholders, if_pos hc]
      rw [expandPlaceholders_ident cb p1 (fun d hd => h d (by simp [hd])) st acc
        (ident ++ [c])]
      congr 1
      simp

/-- An unregistered name looks up to `none`. -/
theorem lookupEntry_eq_none (m : List (String × Entry)) (x : String)
    (h : containsName m x = false) : lookupEntry m x = Option.none := by
  unfold containsName at h
  exact Option.not_isSome_iff_eq_none.1 (by simp [h])

/-- registerWith on a source `PRE%p` (PRE placeholder-free, `p` a maximal
name run that is neither shared nor registered) throws the undefined-lookup
TypeError with the registry exactly as it was: nothing was registered before
the failing placeholder, and neither `name` nor `p` is ever added. -/
theorem registerWith_placeholderFailure (parse : String → ParseTree)
    (rs : Registry → String → String → Except (String × Registry) Registry)
    (st : Registry) (name : String) (pre p : List Char)
    (hpre : ∀ c ∈ pre, c ≠ '%') (hp0 : p ≠ [])
    (hp : ∀ c ∈ p, isPlaceholderChar c = true)
    (hname : containsName st.map name = false)
    (hshared : sharedSource (String.mk p) = Option.none)
    (hreg : containsName st.map (String.mk p) = false) :
    registerWith parse rs st name (String.mk (pre ++ '%' :: p))
      = .error ("TypeError: undefined has no property uid (getAsString "
          ++ String.mk p ++ ")", st) := by
  unfold registerWith
  rw [if_neg (by simp [hname])]
  have hdata : (String.mk (pre ++ '%' :: p)).data = pre ++ '%' :: p := rfl
  rw [hdata, expandPlaceholders_copy (replaceCallback rs) pre hpre st ('%' :: p) "",
    empty_append_string]
  have hstep : expandPlaceholders (replaceCallback rs) st ('%' :: p) (String.mk pre)
      Option.none
      = expandPlaceholders (replaceCallback rs) st p (String.mk pre) (Option.some []) := by
    simp [expandPlaceholders]
  rw [hstep, expandPlaceholders_ident (replaceCallback rs) p hp st (String.mk pre) [],
    List.nil_append]
  cases p with
  | nil => exact absurd rfl hp0
  | cons pc pcs =>
      simp only [applyPlaceholder, replaceCallback, hshared,
        lookupEntry_eq_none st.map (String.mk (pc :: pcs)) hreg]

/-- registerWith on a source `PRE%p` where `p` is already registered (and
not shared) substitutes p's unique identifier into the text and registers
`name` with the parsed result. -/
theorem registerWith_placeholderSubstitutes (parse : String → ParseTree)
    (rs : Registry → String → String → Except (String × Registry) Registry)
    (st : Registry) (name : String) (pre p : List Char) (e : Entry)
    (hpre : ∀ c ∈ pre, c ≠ '%')
    (hp : ∀ c ∈ p, isPlaceholderChar c = true)
    (hname : containsName st.map name = false)
    (hshared : sharedSource (String.mk p) = Option.none)
    (hfound : lookupEntry st.map (String.mk p) = Option.some e)
    (hp0 : p ≠ []) :
    registerWith parse rs st name (String.mk (pre ++ '%' :: p))
      = .ok { gen := st.gen + 1,
              map := insertEntry st.map name
                { expression := parse (String.mk pre ++ e.uid),
                  uid := uidString st.gen, inserted := false } } := by
  unfold registerWith
  rw [if_neg (by simp [hname])]
  have hdata : (String.mk (pre ++ '%' :: p)).data = pre ++ '%' :: p := rfl
  rw [hdata, expandPlaceholders_copy (replaceCallback rs) pre hpre st ('%' :: p) "",
    empty_append_string]
  have hstep : expandPlaceholders (replaceCallback rs) st ('%' :: p) (String.mk pre)
      Option.none
      = expandPlaceholders (replaceCallback rs) st p (String.mk pre) (Option.some []) := by
    simp [expandPlaceholders]
  rw [hstep, expandPlaceholders_ident (replaceCallback rs) p hp st (String.mk pre) [],
    List.nil_append]
  cases p with
  | nil => exact absurd rfl hp0
  | cons pc pcs =>
      simp only [applyPlaceholder, replaceCallback, hshared, hfound]

end RuntimeInliner

/-- C9: placeholder expansion substitutes `%p` with p's unique identifier
only when `p` is already registered (second conjunct) or is a predefined
shared helper, which is registered first (third conjunct, concretely: a
helper whose text references %toObject registers toObject first, with the
earlier identifier, and splices that identifier into its own text); when `p`
is neither shared nor registered, the lookup of the missing entry's uid
fails fatally (first conjunct): registration of the dependent helper does
not complete, and the registry at the throw is exactly the input one — it
holds an entry for neither `p` nor the dependent `name`. -/
theorem claim_C9_placeholderExpansion :
    (∀ parse fuel st name (pre p : List Char),
      (∀ c ∈ pre, c ≠ '%') → p ≠ [] →
      (∀ c ∈ p, RuntimeInliner.isPlaceholderChar c = true) →
      RuntimeInliner.containsName st.map name = false →
      RuntimeInliner.sharedSource (String.mk p) = Option.none →
      RuntimeInliner.containsName st.map (String.mk p) = false →
      RuntimeInliner.register parse fuel st name (String.mk (pre ++ '%' :: p))
        = .error ("TypeError: undefined has no property uid (getAsString "
            ++ String.mk p ++ ")", st)) ∧
    (∀ parse fuel st name (pre p : List Char) (e : RuntimeInliner.Entry),
      (∀ c ∈ pre, c ≠ '%') → p ≠ [] →
      (∀ c ∈ p, RuntimeInliner.isPlaceholderChar c = true) →
      RuntimeInliner.containsName st.map name = false →
      RuntimeInliner.sharedSource (String.mk p) = Option.none →
      RuntimeInliner.lookupEntry st.map (String.mk p) = Option.some e →
      RuntimeInliner.register parse fuel st name (String.mk (pre ++ '%' :: p))
        = .ok { gen := st.gen + 1,
                map := RuntimeInliner.insertEntry st.map name
                  { expression := parse (String.mk pre ++ e.uid),
                    uid := uidString st.gen, inserted := false } }) ∧
    RuntimeInliner.register (fun s => ParseTree.IdentifierExpression s) 1
        { gen := 0, map := [] } "helper" "return %toObject;"
      = .ok { gen := 2, map := [
          ("toObject",
            { expression := ParseTree.IdentifierExpression RuntimeInliner.toObjectSource,
              uid := uidString 0, inserted := false }),
          ("helper",
            { expression := ParseTree.IdentifierExpression ("return " ++ uidString 0 ++ ";"),
              uid := uidString 1, inserted := false })] } := by
  refine ⟨?_, ?_, rfl⟩
  · intro parse fuel st name pre p hpre hp0 hp hname hshared hreg
    cases fuel <;>
      exact RuntimeInliner.registerWith_placeholderFailure parse _ st name pre p
        hpre hp0 hp hname hshared hreg
  · intro parse fuel st name pre p e hpre hp0 hp hname hshared hfound
    cases fuel <;>
      exact RuntimeInliner.registerWith_placeholderSubstitutes parse _ st name pre p e
        hpre hp hname hshared hfound hp0

/-- Witness for C9 at a concrete input: registering a helper whose text
references the unknown placeholder %zzz fails with the undefined-lookup
TypeError and the empty registry untouched. -/
theorem claim_C9_placeholderExpansion_witness :
    RuntimeInliner.register (fun s => ParseTree.IdentifierExpression s) 1
        { gen := 0, map := [] } "helper" (String.mk ("return ".data ++ '%' :: "zzz".data))
      = .error ("TypeError: undefined has no property uid (getAsString "
          ++ String.mk "zzz".data ++ ")", { gen := 0, map := [] }) :=
  claim_C9_placeholderExpansion.1 (fun s => ParseTree.IdentifierExpression s) 1
    { gen := 0, map := [] } "helper" "return ".data "zzz".data
    (by decide) (by decide) (by decide) rfl rfl rfl

/-- C6: counterexample — `get` does not prefer the caller's
`optionalSourceText`. Requesting the unregistered name "toObject" WITH an
explicit source text "CUSTOM" registers the predefined shared definition
instead: the code overwrites `opt_source` with `shared[name]` whenever a
shared definition exists. Instantiating the external parser with the
identity-like observer `fun s => IdentifierExpression s` shows the stored
expression is the parsed shared text, not the parsed "CUSTOM" the claim
requires. -/
theorem claim_C6_counterexample :
    RuntimeInliner.get (fun s => ParseTree.IdentifierExpression s) 1
        { gen := 0, map := [] } "toObject" (Option.some "CUSTOM")
      = .ok (.IdentifierExpression (uidString 0),
          { gen := 1, map := [("toObject",
              { expression := .IdentifierExpression RuntimeInliner.toObjectSource,
                uid := uidString 0, inserted := false })] }) ∧
    RuntimeInliner.toObjectSource ≠ "CUSTOM" :=
  ⟨rfl, by decide⟩

/-- C6 (amended): for an unregistered name, `get` registers using the
predefined shared definition whenever one exists for that name — even when
`optionalSourceText` was given, which is then ignored (first conjunct) — and
uses `optionalSourceText` only as the fallback; when neither exists the call
fails the `traceur.assert` (second conjunct); every successful `get` returns
an identifier expression referencing the unique identifier of the entry the
name maps to (third conjunct). -/
theorem claim_C6_getSharedPrecedence :
    (∀ parse fuel st name s opt,
        RuntimeInliner.containsName st.map name = false →
        RuntimeInliner.sharedSource name = Option.some s →
        RuntimeInliner.get parse fuel st name opt
          = RuntimeInliner.get parse fuel st name Option.none) ∧
    (∀ parse fuel st name,
        RuntimeInliner.containsName st.map name = false →
        RuntimeInliner.sharedSource name = Option.none →
        RuntimeInliner.get parse fuel st name Option.none
          = .error ("traceur.assert(opt_source) failed", st)) ∧
    (∀ parse fuel st name opt e st1,
        RuntimeInliner.get parse fuel st name opt = .ok (e, st1) →
        ∃ entry, RuntimeInliner.lookupEntry st1.map name = Option.some entry ∧
          e = .IdentifierExpression entry.uid) := by
  refine ⟨?_, ?_, ?_⟩
  · intro parse fuel st name s opt h1 h2
    simp only [RuntimeInliner.get, h1, h2]
  · intro parse fuel st name h1 h2
    simp [RuntimeInliner.get, h1, h2]
  · intro parse fuel st name opt e st1 h
    unfold RuntimeInliner.get at h
    split at h
    · cases h
    · split at h
      · rename_i entry hl
        cases h
        exact ⟨entry, hl, rfl⟩
      · cases h

/-- Witness for the amended C6 at a concrete input: requesting an
unregistered, non-shared helper without source text is the fatal assert. -/
theorem claim_C6_getSharedPrecedence_witness :
    RuntimeInliner.get (fun s => ParseTree.IdentifierExpression s) 1
        { gen := 0, map := [] } "nope" Option.none
      = .error ("traceur.assert(opt_source) failed", { gen := 0, map := [] }) :=
  claim_C6_getSharedPrecedence.2.1 (fun s => ParseTree.IdentifierExpression s) 1
    { gen := 0, map := [] } "nope" rfl rfl

/-- C7: finalization. An empty registry returns the program unchanged
(first conjunct). When not-yet-inserted entries exist, exactly one variable
statement is prepended before all original top-level elements, binding each
such entry's unique identifier to its parsed expression in registry order,
and every entry is marked inserted (second conjunct). The operation is
idempotent: running transformProgram again on its own output and state
returns them unchanged (third conjunct). -/
theorem claim_C7_finalizeIdempotent :
    (∀ st : RuntimeInliner.Registry, ∀ es, st.map = [] →
        RuntimeInliner.transformProgram st (.Program es) = (.Program es, st)) ∧
    (∀ st : RuntimeInliner.Registry, ∀ es,
        st.map.filter (fun kv => !kv.2.inserted) ≠ [] →
        RuntimeInliner.transformProgram st (.Program es)
          = (.Program (.cons
              (.VariableStatement (.VariableDeclarationList "var"
                (PTList.ofList ((st.map.filter (fun kv => !kv.2.inserted)).map (fun kv =>
                  ParseTree.VariableDeclaration kv.2.uid (.some kv.2.expression))))))
              es),
             { st with map := st.map.map (fun kv =>
                 (kv.1, { kv.2 with inserted := true })) })) ∧
    (∀ (st : RuntimeInliner.Registry) (t : ParseTree),
        RuntimeInliner.transformProgram
            (RuntimeInliner.transformProgram st t).2
            (RuntimeInliner.transformProgram st t).1
          = RuntimeInliner.transformProgram st t) := by
  refine ⟨?_, ?_, ?_⟩
  · intro st es h
    simp [RuntimeInliner.transformProgram, h]
  · intro st es h
    have hm : st.map ≠ [] := by
      intro e
      exact h (by simp [e])
    simp only [RuntimeInliner.transformProgram, List.isEmpty_iff, if_neg hm, if_neg h]
  · intro st t
    cases t with
    | Program es =>
        by_cases h1 : st.map = []
        · simp [RuntimeInliner.transformProgram, h1]
        · by_cases h2 : st.map.filter (fun kv => !kv.2.inserted) = []
          · simp [RuntimeInliner.transformProgram, List.isEmpty_iff, h1, h2]
          · have hfilter : (st.map.map (fun kv =>
                (kv.1, { kv.2 with inserted := true : RuntimeInliner.Entry }))).filter
                  (fun kv => !kv.2.inserted) = [] := by
              rw [List.filter_map]
              simp [Function.comp_def]
            have hm2 : st.map.map (fun kv =>
                (kv.1, { kv.2 with inserted := true : RuntimeInliner.Entry })) ≠ [] := by
              simpa using h1
            simp [RuntimeInliner.transformProgram, List.isEmpty_iff, h1, h2, hfilter, hm2]
    | _ => simp [RuntimeInliner.transformProgram]

/-- Witness for C7 at a concrete input: finalizing a registry with one
not-yet-inserted "toObject" entry prepends its declaration and marks it
inserted. -/
theorem claim_C7_finalizeIdempotent_witness :
    RuntimeInliner.transformProgram
        { gen := 1, map := [("toObject",
            { expression := ParseTree.IdentifierExpression "E",
              uid := uidString 0, inserted := false })] }
        (.Program (.cons (.ExpressionStatement (.IdentifierExpression "x")) .nil))
      = (.Program (.cons
          (.VariableStatement (.VariableDeclarationList "var"
            (PTList.ofList [ParseTree.VariableDeclaration (uidString 0)
              (.some (ParseTree.IdentifierExpression "E"))])))
          (.cons (.ExpressionStatement (.IdentifierExpression "x")) .nil)),
         { gen := 1, map := [("toObject",
             { expression := ParseTree.IdentifierExpression "E",
               uid := uidString 0, inserted := true })] }) :=
  claim_C7_finalizeIdempotent.2.1
    { gen := 1, map := [("toObject",
        { expression := ParseTree.IdentifierExpression "E",
          uid := uidString 0, inserted := false })] }
    (.cons (.ExpressionStatement (.IdentifierExpression "x")) .nil)
    (by decide)

/-- Witness for C5 at a concrete input: re-registering "toObject" over a
registry that already holds it returns that registry unchanged. -/
theorem claim_C5_registerIdempotent_witness :
    RuntimeInliner.register (fun s => ParseTree.IdentifierExpression s) 5
        { gen := 1, map := [("toObject",
            { expression := ParseTree.IdentifierExpression "E",
              uid := uidString 0, inserted := false })] }
        "toObject" "function(value) \x7b return value; \x7d"
      = .ok { gen := 1, map := [("toObject",
          { expression := ParseTree.IdentifierExpression "E",
            uid := uidString 0, inserted := false })] } :=
  claim_C5_registerIdempotent.1 (fun s => ParseTree.IdentifierExpression s) 5
    { gen := 1, map := [("toObject",
        { expression := ParseTree.IdentifierExpression "E",
          uid := uidString 0, inserted := false })] }
    "toObject" "function(value) \x7b return value; \x7d" rfl
